import Mathlib

/-!
Verification of the wavesurfer piano-roll plugin core.

This file gives a shallow embedding, in Lean 4, of the coordinate/geometry
engine, the spectrogram/FFT analysis pipeline, the note store and the
pointer-interaction operations of the plugin
(`src/piano-roll.ts`, `src/piano-roll/types.ts` (coordinates),
`src/piano-roll/dom-factory.ts` (note-utils), `src/piano-roll/spectrogram.ts`),
and proves or refutes the specification claims about them.

Modelling conventions:
- JavaScript numbers are modelled as exact rationals (`ℚ`) for all
  finite arithmetic; transcendental operations (log2, cos, sin, sqrt, powers)
  are modelled over `ℝ`.
- `Math.floor` is `Int.floor`; `Math.round` is Mathlib's `round`
  (both round half-up, matching JS semantics).
- JS division by zero yields Infinity/NaN (never a rational); where a claim
  is about that corner the function is modelled with an `Option`, `none`
  standing for a non-finite result.
- In-place array mutation is modelled by explicit `List.set`; object
  references (notes held by drag or selection state) are modelled as indices
  into the note list.
- Fallible lookups (`array[i]` yielding `undefined` which is then defaulted
  with `|| 0`) are modelled with `List.getD`.
-/

/- ========================== DEFINITIONS ========================== -/

/-- Note names for each pitch class (0-11), from note-utils. -/
def NOTE_NAMES : List String :=
  ["C", "C#", "D", "D#", "E", "F"] ++ ["F#", "G", "G#", "A", "A#", "B"]

/-- `pitchToNoteName` from note-utils: octave is `Math.floor(pitch/12) - 1`
(JS float floor = `Int.fdiv` on integers), pitch class is `pitch % 12`
(JS remainder = `Int.tmod`; only ever called on non-negative pitches). -/
def pitchToNoteName (pitch : ℤ) : String :=
  NOTE_NAMES.getD (Int.tmod pitch 12).toNat "" ++ toString (Int.fdiv pitch 12 - 1)

/-- `hzToMidi` from note-utils: `hz <= 0` guard, else `69 + 12*log2(hz/440)`. -/
noncomputable def hzToMidi (hz : ℚ) : ℝ :=
  if hz ≤ 0 then 0 else 69 + 12 * Real.logb 2 ((hz : ℝ) / 440)

/-- `hzToMidiQuantized` from note-utils: `Math.round(hzToMidi(hz))`. -/
noncomputable def hzToMidiQuantized (hz : ℚ) : ℤ :=
  round (hzToMidi hz)

/-- `midiToHz` from note-utils: `440 * 2^((midi - 69)/12)`. -/
noncomputable def midiToHz (midi : ℤ) : ℝ :=
  440 * (2 : ℝ) ^ (((midi : ℝ) - 69) / 12)

/-- `isProbablyHz` from note-utils: values above 127 are taken to be Hz. -/
def isProbablyHz (value : ℚ) : Bool :=
  value > 127

/-- `toMidiPitch` from note-utils, on numeric pitch values (the string
note-name branch is not exercised by any claim; all pitch inputs reaching it
in the claims are numbers parsed from CSV or passed as JSON numbers). -/
noncomputable def toMidiPitch (pitch : ℚ) (forceHz : Bool) : ℤ :=
  if forceHz || isProbablyHz pitch then hzToMidiQuantized pitch else round pitch

/-- `clampPitch` from note-utils: `Math.max(0, Math.min(127, Math.round(pitch)))`. -/
def clampPitch (pitch : ℚ) : ℤ :=
  max 0 (min 127 (round pitch))

/-- Integer clamp used where the code applies `clampPitch` to an already
integral value (rounding an integer is the identity). -/
def clampPitchInt (pitch : ℤ) : ℤ :=
  max 0 (min 127 pitch)

/-- `CoordinateParams` from coordinates. -/
structure CoordinateParams where
  width : ℚ
  height : ℚ
  duration : ℚ
  minPitch : ℤ
  maxPitch : ℤ
  isFolded : Bool
  usedPitches : List ℤ
deriving DecidableEq

/-- `getDisplayPitches`: the used pitches when folded and non-empty, else the
full inclusive integer range `[minPitch, maxPitch]`. -/
def getDisplayPitches (params : CoordinateParams) : List ℤ :=
  if params.isFolded = true ∧ params.usedPitches.length > 0 then
    params.usedPitches
  else
    (List.range (params.maxPitch - params.minPitch + 1).toNat).map
      (fun (i : ℕ) => params.minPitch + (i : ℤ))

/-- `getNoteHeight`: `height / count(displayPitches)`. -/
def getNoteHeight (params : CoordinateParams) : ℚ :=
  params.height / (getDisplayPitches params).length

/-- `timeToPx` from coordinates: explicit zero-duration guard. -/
def timeToPx (time : ℚ) (params : CoordinateParams) : ℚ :=
  if params.duration = 0 then 0 else time / params.duration * params.width

/-- `pxToTime` from coordinates: `(px / width) * duration`, with no guard; a
zero width makes the JS division non-finite (Infinity/NaN), modelled as
`none`. -/
def pxToTime (px : ℚ) (params : CoordinateParams) : Option ℚ :=
  if params.width = 0 then none else some (px / params.width * params.duration)

/-- `pitchToPx`: folded mode looks the pitch up in the display list
(`-100` off-screen sentinel when absent); unfolded mode lays the range out
high-to-top. -/
def pitchToPx (pitch : ℤ) (params : CoordinateParams) : ℚ :=
  let pitches := getDisplayPitches params
  let noteHeight := params.height / (pitches.length : ℚ)
  if params.isFolded = true then
    match pitches.indexOf? pitch with
    | none => -100
    | some idx => params.height - ((idx : ℚ) + 1) * noteHeight
  else
    params.height - (((pitch : ℚ) - (params.minPitch : ℚ) + 1) * noteHeight)

/-- `pxToPitch`: folded mode buckets `y` into a row index clamped to the valid
range; unfolded mode inverts the linear layout, rounds, and clamps. -/
def pxToPitch (y : ℚ) (params : CoordinateParams) : ℤ :=
  let pitches := getDisplayPitches params
  let noteHeight := params.height / (pitches.length : ℚ)
  if params.isFolded = true then
    let idx : ℤ := ⌊(params.height - y) / noteHeight⌋
    if idx < 0 then pitches.getD 0 0
    else if idx ≥ (pitches.length : ℤ) then pitches.getD (pitches.length - 1) 0
    else pitches.getD idx.toNat 0
  else
    clampPitch ((round ((params.minPitch : ℚ) + (params.height - y) / noteHeight - 1) : ℤ) : ℚ)

/-- One list-element swap pair used by the bit-reversal permutation:
`[a[i], a[j]] = [a[j], a[i]]`. -/
def listSwap (l : List ℝ) (i j : ℕ) : List ℝ :=
  (l.set i (l.getD j 0)).set j (l.getD i 0)

/-- The inner `while (m >= 1 && j >= m) { j -= m; m >>= 1 }; j += m` of the
bit-reversal loop in `fft`. -/
def bitRevAdjust (j m : ℕ) : ℕ :=
  if 1 ≤ m ∧ m ≤ j then bitRevAdjust (j - m) (m / 2) else j + m
  termination_by m
  decreasing_by omega

/-- One iteration of the bit-reversal `for (i = 0; i < n; i++)` loop of `fft`:
conditionally swap positions `i` and `j`, then advance `j` starting from
`m = n >> 1`. -/
def bitReversalStep (n : ℕ) (acc : List ℝ × List ℝ × ℕ) (i : ℕ) :
    List ℝ × List ℝ × ℕ :=
  let re := acc.1
  let im := acc.2.1
  let j := acc.2.2
  let re2 := if i < j then listSwap re i j else re
  let im2 := if i < j then listSwap im i j else im
  (re2, im2, bitRevAdjust j (n / 2))

/-- The full bit-reversal permutation pass of `fft`. -/
def bitReversal (n : ℕ) (re im : List ℝ) : List ℝ × List ℝ :=
  let r := (List.range n).foldl (bitReversalStep n) (re, im, 0)
  (r.1, r.2.1)

/-- One butterfly update of `fft` at positions `i` and `j = i + mmax`:
`tr/ti` are computed from the current values, `a[j] := a[i] - t`,
then `a[i] += t` (sequential in-place order preserved). -/
def butterflyPair (wr wi : ℝ) (acc : List ℝ × List ℝ) (i j : ℕ) :
    List ℝ × List ℝ :=
  let re := acc.1
  let im := acc.2
  let tr := wr * re.getD j 0 - wi * im.getD j 0
  let ti := wr * im.getD j 0 + wi * re.getD j 0
  let re1 := re.set j (re.getD i 0 - tr)
  let im1 := im.set j (im.getD i 0 - ti)
  let re2 := re1.set i (re1.getD i 0 + tr)
  let im2 := im1.set i (im1.getD i 0 + ti)
  (re2, im2)

/-- Index sequence of the innermost `for (i = m; i < n; i += mmax << 1)`
loop of `fft`. -/
def innerIndices (n m mmax : ℕ) : List ℕ :=
  (List.range ((n - m + 2 * mmax - 1) / (2 * mmax))).map (fun k => m + k * (2 * mmax))

/-- One iteration of the middle `for (m = 0; m < mmax; m++)` loop of `fft`:
run all butterflies for twiddle index `m`, then rotate `(wr, wi)` by
`(wpr, wpi)`. -/
def butterflyMStep (n mmax : ℕ) (wpr wpi : ℝ) (acc : List ℝ × List ℝ × ℝ × ℝ)
    (_m : ℕ) : List ℝ × List ℝ × ℝ × ℝ :=
  let re := acc.1
  let im := acc.2.1
  let wr := acc.2.2.1
  let wi := acc.2.2.2
  let p := (innerIndices n _m mmax).foldl
    (fun q i => butterflyPair wr wi q i (i + mmax)) (re, im)
  (p.1, p.2, wr * wpr - wi * wpi, wi * wpr + wr * wpi)

/-- The outer `for (mmax = 1; mmax < n; mmax <<= 1)` Cooley-Tukey passes of
`fft`, with `theta = -π/mmax`, `wpr = cos θ`, `wpi = sin θ`. -/
noncomputable def fftPasses (n : ℕ) (re im : List ℝ) (mmax : ℕ) :
    List ℝ × List ℝ :=
  if 0 < mmax ∧ mmax < n then
    let theta : ℝ := -Real.pi / (mmax : ℝ)
    let wpr := Real.cos theta
    let wpi := Real.sin theta
    let r := (List.range mmax).foldl (butterflyMStep n mmax wpr wpi) (re, im, 1, 0)
    fftPasses n r.1 r.2.1 (2 * mmax)
  else (re, im)
  termination_by n - mmax
  decreasing_by omega

/-- `fft` from spectrogram.ts: in-place radix-2 Cooley-Tukey FFT
(bit-reversal permutation followed by iterative butterfly passes), modelled
as a function on the pair of real/imaginary lists. -/
noncomputable def fft (re im : List ℝ) : List ℝ × List ℝ :=
  let n := re.length
  if n ≤ 1 then (re, im)
  else
    let p := bitReversal n re im
    fftPasses n p.1 p.2 1

/-- `hannWindow` from spectrogram.ts: `0.5 * (1 - cos(2πi/(N-1)))`. -/
noncomputable def hannWindow (winLen : ℕ) : List ℝ :=
  (List.range winLen).map
    (fun i => 0.5 * (1 - Real.cos (2 * Real.pi * (i : ℝ) / ((winLen : ℝ) - 1))))

/-- `calculateSpectrogram` from spectrogram.ts: `numFrames =
floor((audioData.length - fftSize)/hopSize) + 1` (the loop body runs only for
non-negative indices below that value, hence `Int.toNat`); each frame is the
windowed segment's FFT magnitudes `sqrt(re²+im²)` for the first
`fftSize/2` bins. `audioData[start+i] || 0` is modelled by `List.getD _ _ 0`. -/
noncomputable def calculateSpectrogram (audioData : List ℝ) (_sampleRate : ℚ)
    (fftSize : ℕ) (hopSize : ℕ) : List (List ℝ) :=
  let window := hannWindow fftSize
  let numFrames : ℤ := ⌊((audioData.length : ℚ) - (fftSize : ℚ)) / (hopSize : ℚ)⌋ + 1
  (List.range numFrames.toNat).map (fun frame =>
    let start := frame * hopSize
    let re := (List.range fftSize).map
      (fun i => audioData.getD (start + i) 0 * window.getD i 0)
    let im := List.replicate fftSize (0 : ℝ)
    let p := fft re im
    (List.range (fftSize / 2)).map (fun i =>
      Real.sqrt (p.1.getD i 0 * p.1.getD i 0 + p.2.getD i 0 * p.2.getD i 0)))

/-- `frequencyToBin` from spectrogram.ts. -/
def frequencyToBin (frequency sampleRate : ℚ) (fftSize : ℕ) : ℤ :=
  round (frequency / sampleRate * (fftSize : ℚ))

/-- Color map selector from spectrogram.ts. -/
inductive ColorMapType where
  | default
  | grayscale
  | viridis
deriving DecidableEq

/-- `getSpectrogramColor` from spectrogram.ts: clamp the input to `[0,1]`,
then apply the selected ramp (grayscale linear; simplified viridis polynomial
with explicit 0-255 clamps; default four-segment purple→blue→orange→yellow
gradient). -/
noncomputable def getSpectrogramColor (value : ℝ) (colorMap : ColorMapType) :
    ℤ × ℤ × ℤ :=
  let v := max 0 (min 1 value)
  match colorMap with
  | .grayscale => (⌊v * 255⌋, ⌊v * 255⌋, ⌊v * 255⌋)
  | .viridis =>
      (min 255 (max 0 ⌊68 + v * 185⌋),
       min 255 (max 0 ⌊1 + v * 203⌋),
       min 255 (max 0 ⌊84 + v * (253 - 84) * (1 - v * 0.5)⌋))
  | .default =>
      -- the segment parameter `t` of the source is inlined in each component
      if v < 0.25 then
        (⌊v / 0.25 * 60⌋, 0, ⌊v / 0.25 * 100⌋)
      else if v < 0.5 then
        (⌊60 - (v - 0.25) / 0.25 * 30⌋, ⌊(v - 0.25) / 0.25 * 80⌋,
         ⌊100 + (v - 0.25) / 0.25 * 155⌋)
      else if v < 0.75 then
        (⌊30 + (v - 0.5) / 0.25 * 225⌋, ⌊80 + (v - 0.5) / 0.25 * 100⌋,
         ⌊255 - (v - 0.5) / 0.25 * 200⌋)
      else
        (255, ⌊180 + (v - 0.75) / 0.25 * 75⌋, ⌊55 + (v - 0.75) / 0.25 * 200⌋)

/-- An RGB triple with all three components in `[0, 255]`. -/
def rgbInRange (c : ℤ × ℤ × ℤ) : Prop :=
  0 ≤ c.1 ∧ c.1 ≤ 255 ∧ 0 ≤ c.2.1 ∧ c.2.1 ≤ 255 ∧ 0 ≤ c.2.2 ∧ c.2.2 ≤ 255

/-- `PianoRollNote` from types.ts (normalized format). -/
structure PianoRollNote where
  pitch : ℤ
  name : String
  onset : ℚ
  offset : ℚ
  duration : ℚ
  velocity : ℚ
  track : ℤ
  channel : ℤ
  color : Option String
deriving DecidableEq

instance : Inhabited PianoRollNote :=
  ⟨⟨0, "", 0, 0, 0, 0, 0, 0, none⟩⟩

/-- `PianoRollNoteInput` from types.ts. The `pitch` field is modelled as a
number; the string note-name alternative is not exercised by any claim (the
CSV loader always produces numeric pitches). -/
structure PianoRollNoteInput where
  pitch : ℚ
  onset : ℚ
  offset : Option ℚ
  duration : Option ℚ
  velocity : Option ℚ
  track : Option ℤ
  channel : Option ℤ
  color : Option String
deriving DecidableEq

/-- `normalizeNote` from piano-roll.ts:
`duration = input.duration ?? (input.offset ? input.offset - input.onset : 0.1)`
(JS truthiness: a present but zero offset falls through to the 0.1 default),
`offset = input.offset ?? onset + duration`, velocity above 1 is rescaled
from the 0-127 MIDI range. -/
noncomputable def normalizeNote (input : PianoRollNoteInput) (pitchIsHz : Bool) :
    PianoRollNote :=
  let pitch := clampPitch ((toMidiPitch input.pitch pitchIsHz : ℤ) : ℚ)
  let onset := input.onset
  let duration := match input.duration with
    | some d => d
    | none => match input.offset with
      | some o => if o ≠ 0 then o - input.onset else 0.1
      | none => 0.1
  let offset := match input.offset with
    | some o => o
    | none => onset + duration
  let velocity0 := input.velocity.getD 0.8
  let velocity := if velocity0 > 1 then velocity0 / 127 else velocity0
  { pitch := pitch, name := pitchToNoteName pitch, onset := onset, offset := offset,
    duration := duration, velocity := velocity, track := input.track.getD 0,
    channel := input.channel.getD 0, color := input.color }

/-- The sort condition used everywhere: `(a, b) => a.onset - b.onset`. -/
def onsetLE (a b : PianoRollNote) : Bool :=
  decide (a.onset ≤ b.onset)

/-- JS `Array.from(new Set(l))`: deduplicate keeping first occurrences in
insertion order. -/
def jsSetDedup {α : Type} [DecidableEq α] (l : List α) : List α :=
  l.foldl (fun acc x => if x ∈ acc then acc else acc ++ [x]) []

/-- `updateUsedPitches` from piano-roll.ts: distinct pitches, sorted
ascending (`Array.from(new Set(...)).sort((a, b) => a - b)`). -/
def updateUsedPitchesFn (notes : List PianoRollNote) : List ℤ :=
  (jsSetDedup (notes.map (fun n => n.pitch))).mergeSort (fun a b => decide (a ≤ b))

/-- The subset of plugin options read by the modelled operations.
`minPitch`/`maxPitch` are the raw (possibly absent) constructor options used
by `detectPitchRange`; `height`, `showSpectrogram` and `spectrogramOverlap`
are the defaulted values from `getOptions()`. -/
structure PluginOptions where
  minPitch : Option ℤ
  maxPitch : Option ℤ
  height : ℚ
  showSpectrogram : Bool
  spectrogramOverlap : ℚ
deriving DecidableEq

/-- Drag mode classification from piano-roll.ts. -/
inductive DragMode where
  | move
  | resizeLeft
  | resizeRight
deriving DecidableEq

/-- The plugin's `dragState` field: the dragged note is held by reference,
modelled as an index into the note list; `originalNote` is the deep copy made
on mouse-down; `multiDrag` holds the selected notes (as indices) and their
snapshots. -/
structure DragState where
  noteIdx : ℕ
  originalNote : PianoRollNote
  mode : DragMode
  startX : ℚ
  startY : ℚ
  offsetX : ℚ
  offsetY : ℚ
  lastPreviewPitch : ℤ
  multiDrag : Option (List (ℕ × PianoRollNote))
deriving DecidableEq

/-- A decoded audio buffer: sample rate plus per-channel sample lists. -/
structure PRAudioBuffer where
  sampleRate : ℚ
  channels : List (List ℝ)

/-- The host wavesurfer collaborator: total duration (seconds) and wrapper
scroll width (pixels). -/
structure Host where
  duration : ℚ
  scrollWidth : ℚ
deriving DecidableEq

/-- `console.warn` output relevant to the claims. -/
inductive PRWarning where
  | invalidFftSize (size : ℕ)
deriving DecidableEq

/-- Events emitted by the plugin operations modelled here. -/
inductive PREvent where
  | load (noteCount trackCount : ℕ)
  | notedrag (note originalNote : PianoRollNote)
  | noteresize (note originalNote : PianoRollNote)
  | notecreate (note : PianoRollNote)
  | notedelete (note : PianoRollNote)
  | selectionchange (notes : List PianoRollNote)
  | noteschange
deriving DecidableEq

/-- The plugin's mutable state (the fields touched by the modelled
operations). `selectedNotes` is the identity-based selection Set, modelled as
the list of selected indices into `notes` in insertion order. -/
structure PluginState where
  options : PluginOptions
  notes : List PianoRollNote
  minPitch : ℤ
  maxPitch : ℤ
  trackCount : ℕ
  isFolded : Bool
  usedPitches : List ℤ
  snapEnabled : Bool
  previewEnabled : Bool
  spectrogramData : List (List ℝ)
  audioSampleRate : ℚ
  currentFftSize : ℕ
  cachedAudioBuffer : Option PRAudioBuffer
  dragState : Option DragState
  selectedNotes : List ℕ

/-- `MIN_NOTE_DURATION` from piano-roll.ts. -/
def MIN_NOTE_DURATION : ℚ := 0.05

/-- Build the `CoordinateParams` for the plugin-level coordinate helpers
(piano-roll.ts private `timeToPx`/`pitchToPx`/`pxToPitch` duplicate the pure
coordinate functions over this data; the canvas is assumed present). -/
def mkParams (st : PluginState) (host : Host) : CoordinateParams :=
  ⟨host.scrollWidth, st.options.height, host.duration, st.minPitch, st.maxPitch,
   st.isFolded, st.usedPitches⟩

/-- Plugin-level `timeToPx`: explicit zero-duration guard, then
`time / duration * scrollWidth`. -/
def pluginTimeToPx (host : Host) (time : ℚ) : ℚ :=
  if host.duration = 0 then 0 else time / host.duration * host.scrollWidth

/-- Plugin-level `pxToTime` with the host present, on the finite path
(`scrollWidth ≠ 0`); the degenerate cases are modelled by `pxToTimePlugin`. -/
def pluginPxToTime (host : Host) (px : ℚ) : ℚ :=
  px / host.scrollWidth * host.duration

/-- Plugin-level `pxToTime` including the degenerate cases: an absent host
returns 0; a zero scroll width makes the JS division non-finite
(Infinity/NaN), modelled as `none`. -/
def pxToTimePlugin (ws : Option Host) (px : ℚ) : Option ℚ :=
  match ws with
  | none => some 0
  | some host =>
      if host.scrollWidth = 0 then none
      else some (px / host.scrollWidth * host.duration)

/-- `detectPitchRange` from piano-roll.ts: empty list restores the option (or
default 21/108) bounds; otherwise pad to octave boundaries
(`max(0, floor((min-2)/12)*12)` and `min(127, ceil((max+2)/12)*12 + 11)`),
unless explicit options are set. -/
def detectPitchRange (st : PluginState) : PluginState :=
  match st.notes.map (fun n => n.pitch) with
  | [] => { st with minPitch := st.options.minPitch.getD 21,
                    maxPitch := st.options.maxPitch.getD 108 }
  | p :: ps =>
      let minNote := ps.foldl min p
      let maxNote := ps.foldl max p
      { st with
        minPitch := st.options.minPitch.getD (max 0 (Int.fdiv (minNote - 2) 12 * 12)),
        maxPitch := st.options.maxPitch.getD
          (min 127 (Int.fdiv (maxNote + 2 + 11) 12 * 12 + 11)) }

/-- `loadNotes` from piano-roll.ts: normalize every input, sort by onset,
count distinct tracks, re-detect the pitch range, recompute `usedPitches`,
emit `load`. -/
noncomputable def loadNotes (inputs : List PianoRollNoteInput) (pitchIsHz : Bool)
    (st : PluginState) : PluginState × List PREvent :=
  let notes := (inputs.map (fun n => normalizeNote n pitchIsHz)).mergeSort onsetLE
  let trackCount := (jsSetDedup (notes.map (fun n => n.track))).length
  let st2 := detectPitchRange { st with notes := notes, trackCount := trackCount }
  ({ st2 with usedPitches := updateUsedPitchesFn notes },
   [PREvent.load notes.length trackCount])

/-- `CSVParseOptions` from types.ts with the defaults already resolved
(`hasHeader = false`, columns `0/1/2`, `delimiter = ','`), except
`pitchIsHz` whose absence triggers auto-detection. -/
structure CSVParseOptions where
  hasHeader : Bool
  onsetColumn : ℕ
  pitchColumn : ℕ
  durationColumn : ℕ
  pitchIsHz : Option Bool
  delimiter : Char
deriving DecidableEq

def isWhitespaceChar (c : Char) : Bool :=
  c = ' ' ∨ c = '\t' ∨ c = '\n' ∨ c = '\r'

/-- JS `String.prototype.trim` on a character list. -/
def trimChars (l : List Char) : List Char :=
  ((l.dropWhile isWhitespaceChar).reverse.dropWhile isWhitespaceChar).reverse

/-- JS `String.prototype.split` with a single-character separator (the CSV
delimiter and the newline separator used by `loadCSV`). -/
def splitOnChar (sep : Char) (l : List Char) : List (List Char) :=
  match l with
  | [] => [[]]
  | c :: rest =>
    match splitOnChar sep rest with
    | [] => [[]]
    | h :: t => if c = sep then [] :: h :: t else (c :: h) :: t

def isDigitChar (c : Char) : Bool :=
  '0' ≤ c ∧ c ≤ '9'

def digitsToNat (ds : List Char) : ℕ :=
  ds.foldl (fun a c => 10 * a + (c.toNat - '0'.toNat)) 0

/-- JS `parseFloat` restricted to the plain decimal literals
(`[+-]?digits[.digits]`, prefix-parsed) that the numeric CSV fields use;
no parse (`NaN`) is `none`. -/
def parseFloat (s : List Char) : Option ℚ :=
  let signRest : ℚ × List Char :=
    match s with
    | '-' :: r => (-1, r)
    | '+' :: r => (1, r)
    | _ => (1, s)
  let sign := signRest.1
  let rest := signRest.2
  let ip := rest.takeWhile isDigitChar
  let rest2 := rest.dropWhile isDigitChar
  match rest2 with
  | '.' :: r3 =>
      let fp := r3.takeWhile isDigitChar
      if ip = [] ∧ fp = [] then none
      else some (sign * ((digitsToNat ip : ℚ) + (digitsToNat fp : ℚ) / (10 ^ fp.length)))
  | _ => if ip = [] then none else some (sign * (digitsToNat ip : ℚ))

/-- One iteration of the row-parsing loop of `loadCSV`: trim the line, skip
it when blank, split on the delimiter, parse the three configured columns,
silently drop the row when any field is unparsable (`NaN`). -/
def parseCSVRow (opts : CSVParseOptions) (line0 : List Char) :
    Option PianoRollNoteInput :=
  let line := trimChars line0
  if line = [] then none
  else
    let cols := splitOnChar opts.delimiter line
    match (cols.get? opts.onsetColumn).bind parseFloat,
          (cols.get? opts.pitchColumn).bind parseFloat,
          (cols.get? opts.durationColumn).bind parseFloat with
    | some onset, some pitch, some dur =>
        some { pitch := pitch, onset := onset, offset := none,
               duration := some dur, velocity := none, track := none,
               channel := none, color := none }
    | _, _, _ => none

/-- The row-parsing loop of `loadCSV`: split the trimmed text into lines,
skip the header if configured, and collect the parsable rows. -/
def parseCSVRows (csv : List Char) (opts : CSVParseOptions) :
    List PianoRollNoteInput :=
  let lines := splitOnChar '\n' (trimChars csv)
  let rows := lines.drop (if opts.hasHeader then 1 else 0)
  rows.filterMap (parseCSVRow opts)

/-- `loadCSV` from piano-roll.ts: parse the rows, auto-detect Hz when the
option is absent (any parsed pitch above 127), and delegate to `loadNotes`. -/
noncomputable def loadCSV (csv : List Char) (opts : CSVParseOptions)
    (st : PluginState) : PluginState × List PREvent :=
  let notes := parseCSVRows csv opts
  let detectHz := match opts.pitchIsHz with
    | some b => b
    | none => notes.any (fun n => decide (n.pitch > 127))
  loadNotes notes detectHz st

/-- `clearNotes` from piano-roll.ts. -/
def clearNotes (st : PluginState) : PluginState :=
  detectPitchRange { st with notes := [], trackCount := 0, usedPitches := [] }

/-- The per-note predicate of `findNoteAtPosition`: visible under the current
pitch range and fold state, and the point inside the note's rectangle
`x ∈ [noteX, noteX + max(width, 2)]`, `y ∈ [noteY, noteY + rowHeight - 1]`. -/
def noteHit (x y : ℚ) (host : Host) (st : PluginState) (noteHeight : ℚ)
    (note : PianoRollNote) : Bool :=
  if note.pitch < st.minPitch ∨ note.pitch > st.maxPitch then false
  else if st.isFolded = true ∧ ¬ (note.pitch ∈ st.usedPitches) then false
  else
    let noteX := pluginTimeToPx host note.onset
    let noteW := max (pluginTimeToPx host note.offset - noteX) 2
    let noteY := pitchToPx note.pitch (mkParams st host)
    let noteH := noteHeight - 1
    decide (noteX ≤ x ∧ x ≤ noteX + noteW ∧ noteY ≤ y ∧ y ≤ noteY + noteH)

/-- `findNoteAtPosition` from piano-roll.ts: first match in list order. -/
def findNoteAtPosition (x y : ℚ) (host : Host) (st : PluginState) :
    Option PianoRollNote :=
  st.notes.find? (noteHit x y host st (getNoteHeight (mkParams st host)))

/-- The backward onset scan of `detectSpectrogramNote`: walk back from the
click frame while the peak-bin magnitude stays at or above the threshold. -/
noncomputable def scanBack (data : List (List ℝ)) (peakBin : ℕ) (threshold : ℝ)
    (f : ℕ) : ℕ :=
  if f = 0 then 0
  else if (data.getD (f - 1) []).getD peakBin 0 < threshold then f
  else scanBack data peakBin threshold (f - 1)
  termination_by f
  decreasing_by omega

/-- The forward offset scan of `detectSpectrogramNote`. -/
noncomputable def scanFwd (data : List (List ℝ)) (peakBin : ℕ) (threshold : ℝ)
    (f : ℕ) : ℕ :=
  if f + 1 < data.length then
    (if (data.getD (f + 1) []).getD peakBin 0 < threshold then f
     else scanFwd data peakBin threshold (f + 1))
  else f
  termination_by data.length - f
  decreasing_by omega

/-- The local peak search of `detectSpectrogramNote` over bins `[lo, hi]`. -/
noncomputable def peakSearch (frame : List ℝ) (lo hi : ℕ) (bin : ℕ) (mag : ℝ) :
    ℕ × ℝ :=
  ((List.range (hi + 1 - lo)).map (fun k => lo + k)).foldl
    (fun acc b => if frame.getD b 0 > acc.2 then (b, frame.getD b 0) else acc)
    (bin, mag)

/-- `detectSpectrogramNote` from piano-roll.ts: reject when the clicked bin is
below 20% of the frame max; search ±~2 semitones of bins for the local peak;
scan the peak bin's time series backward/forward against a 20% threshold;
convert frames back to seconds; force a 0.25 s duration when below the
minimum. Returns `(pitch, onset, offset)`. -/
noncomputable def detectSpectrogramNote (x y : ℚ) (host : Host)
    (st : PluginState) : Option (ℤ × ℚ × ℚ) :=
  if st.spectrogramData.length = 0 then none
  else
    let clickPitch := pxToPitch y (mkParams st host)
    let clickFreq : ℝ := midiToHz clickPitch
    let bin : ℤ := round (clickFreq / (st.audioSampleRate : ℝ) * (st.currentFftSize : ℝ))
    if bin < 0 ∨ bin ≥ ((st.currentFftSize / 2 : ℕ) : ℤ) then none
    else
      let frameIndex : ℤ :=
        round (x / host.scrollWidth * ((st.spectrogramData.length : ℚ) - 1))
      if frameIndex < 0 ∨ frameIndex ≥ (st.spectrogramData.length : ℤ) then none
      else
        let frame := st.spectrogramData.getD frameIndex.toNat []
        let magnitude := frame.getD bin.toNat 0
        let maxMag := frame.foldl (fun m v => if v > m then v else m) 0
        if magnitude < maxMag * 0.2 then none
        else
          let threshold := magnitude * 0.2
          let searchRadius : ℤ :=
            round (clickFreq * 0.12 / (st.audioSampleRate : ℝ) * (st.currentFftSize : ℝ))
          let lo : ℕ := (max 0 (bin - searchRadius)).toNat
          let hi : ℕ := (min ((frame.length : ℤ) - 1) (bin + searchRadius)).toNat
          let pk := peakSearch frame lo hi bin.toNat magnitude
          let peakFreq : ℚ := (pk.1 : ℚ) * st.audioSampleRate / (st.currentFftSize : ℚ)
          let detectedPitch :=
            clampPitchInt (round ((69 : ℝ) + 12 * Real.logb 2 ((peakFreq : ℝ) / 440)))
          let onsetFrame := scanBack st.spectrogramData pk.1 threshold frameIndex.toNat
          let offsetFrame := scanFwd st.spectrogramData pk.1 threshold frameIndex.toNat
          let onset := (onsetFrame : ℚ) / ((st.spectrogramData.length : ℚ) - 1) * host.duration
          let offset := min (((offsetFrame : ℚ) + 1) / ((st.spectrogramData.length : ℚ) - 1)
            * host.duration) host.duration
          if offset - onset < MIN_NOTE_DURATION then some (detectedPitch, onset, onset + 0.25)
          else some (detectedPitch, onset, offset)

/-- `onDoubleClick` from piano-roll.ts: a hit on an existing note is a no-op;
otherwise the note is created at the pointer's time/pitch (or from the
spectrogram-snap detection when enabled and available), appended, and the
whole list re-sorted by onset; `usedPitches` is recomputed; `notecreate` and
`noteschange` are emitted. -/
noncomputable def onDoubleClick (x y : ℚ) (host : Host) (st : PluginState) :
    PluginState × List PREvent :=
  match findNoteAtPosition x y host st with
  | some _ => (st, [])
  | none =>
    let fallbackPitch := pxToPitch y (mkParams st host)
    let fallbackOnset := pluginPxToTime host x
    let fallbackOffset := min (fallbackOnset + 0.25) host.duration
    let pod : ℤ × ℚ × ℚ :=
      if st.snapEnabled = true ∧ st.spectrogramData.length > 0 then
        match detectSpectrogramNote x y host st with
        | some d => d
        | none => (fallbackPitch, fallbackOnset, fallbackOffset)
      else (fallbackPitch, fallbackOnset, fallbackOffset)
    let newNote : PianoRollNote :=
      { pitch := pod.1, name := pitchToNoteName pod.1, onset := pod.2.1,
        offset := pod.2.2, duration := pod.2.2 - pod.2.1, velocity := 0.8,
        track := 0, channel := 0, color := none }
    let notes := (st.notes ++ [newNote]).mergeSort onsetLE
    ({ st with notes := notes, usedPitches := updateUsedPitchesFn notes },
     [PREvent.notecreate newNote, PREvent.noteschange])

/-- `onDragMove` from piano-roll.ts: move recomputes onset from the drag's
original-position delta (clamped to `[0, duration - noteDuration]`) and takes
the pitch from the pointer row; multi-drag applies the same onset/pitch
deltas to every selected note against its own snapshot; resize moves one
edge, clamped against `MIN_NOTE_DURATION`, and recomputes `duration`. -/
def onDragMove (x y : ℚ) (host : Host) (st : PluginState) : PluginState :=
  match st.dragState with
  | none => st
  | some ds =>
    let note := st.notes.getD ds.noteIdx default
    let duration := host.duration
    match ds.mode with
    | DragMode.move =>
      let newPitch := pxToPitch y (mkParams st host)
      match ds.multiDrag with
      | some pairs =>
        let deltaTime := pluginPxToTime host (x - ds.offsetX) - ds.originalNote.onset
        let deltaPitch := newPitch - ds.originalNote.pitch
        let notes2 := pairs.foldl (fun ns pair =>
          let orig := pair.2
          let n := ns.getD pair.1 default
          let newOnset := max 0 (min (duration - orig.duration) (orig.onset + deltaTime))
          let targetPitch := clampPitchInt (orig.pitch + deltaPitch)
          ns.set pair.1
            { n with
              onset := newOnset
              offset := newOnset + orig.duration
              pitch := targetPitch
              name := if n.pitch ≠ targetPitch then pitchToNoteName targetPitch
                      else n.name }) st.notes
        let ds2 := if st.previewEnabled = true ∧ newPitch ≠ ds.lastPreviewPitch
                   then { ds with lastPreviewPitch := newPitch } else ds
        { st with notes := notes2, dragState := some ds2 }
      | none =>
        let noteDuration := note.duration
        let newOnset := max 0 (min (duration - noteDuration)
          (pluginPxToTime host (x - ds.offsetX)))
        let note2 :=
          if note.pitch ≠ newPitch then
            { note with
              onset := newOnset
              offset := newOnset + noteDuration
              pitch := newPitch
              name := pitchToNoteName newPitch }
          else
            { note with onset := newOnset, offset := newOnset + noteDuration }
        let ds2 := if note.pitch ≠ newPitch ∧ st.previewEnabled = true ∧
                      newPitch ≠ ds.lastPreviewPitch
                   then { ds with lastPreviewPitch := newPitch } else ds
        { st with notes := st.notes.set ds.noteIdx note2, dragState := some ds2 }
    | DragMode.resizeLeft =>
      let newOnset := max 0 (min (note.offset - MIN_NOTE_DURATION)
        (pluginPxToTime host x))
      let note2 := { note with onset := newOnset, duration := note.offset - newOnset }
      { st with notes := st.notes.set ds.noteIdx note2 }
    | DragMode.resizeRight =>
      let newOffset := max (note.onset + MIN_NOTE_DURATION)
        (min duration (pluginPxToTime host x))
      let note2 := { note with offset := newOffset, duration := newOffset - note.onset }
      { st with notes := st.notes.set ds.noteIdx note2 }

/-- `onDragEnd` from piano-roll.ts: multi-drag in move mode emits one
`notedrag` per changed note plus one `noteschange` when anything changed;
otherwise a single changed note emits `notedrag` (move) or `noteresize`
(resize) plus `noteschange`; an unchanged drag emits nothing. The drag state
is cleared. -/
def onDragEnd (st : PluginState) : PluginState × List PREvent :=
  match st.dragState with
  | none => (st, [])
  | some ds =>
    let note := st.notes.getD ds.noteIdx default
    let events :=
      match ds.multiDrag, ds.mode with
      | some pairs, DragMode.move =>
        let changedEvents := pairs.filterMap (fun pair =>
          let n := st.notes.getD pair.1 default
          if n.onset ≠ pair.2.onset ∨ n.offset ≠ pair.2.offset ∨
             n.pitch ≠ pair.2.pitch
          then some (PREvent.notedrag n pair.2) else none)
        if changedEvents ≠ [] then changedEvents ++ [PREvent.noteschange] else []
      | _, _ =>
        if note.onset ≠ ds.originalNote.onset ∨ note.offset ≠ ds.originalNote.offset ∨
           note.pitch ≠ ds.originalNote.pitch then
          (if ds.mode = DragMode.move then [PREvent.notedrag note ds.originalNote]
           else [PREvent.noteresize note ds.originalNote]) ++ [PREvent.noteschange]
        else []
    ({ st with dragState := none }, events)

/-- `deleteNote` from piano-roll.ts (shift+click delete), by index; an index
with no backing note (the `indexOf === -1` case) is a no-op. -/
def deleteNote (i : ℕ) (st : PluginState) : PluginState × List PREvent :=
  if i < st.notes.length then
    let note := st.notes.getD i default
    let notes2 := st.notes.eraseIdx i
    ({ st with notes := notes2, usedPitches := updateUsedPitchesFn notes2 },
     [PREvent.notedelete note, PREvent.noteschange])
  else (st, [])

/-- `deleteSelectedNotes` from piano-roll.ts: remove every selected note
(emitting `notedelete` each, in selection order), clear the selection,
recompute `usedPitches`, emit `selectionchange []` and `noteschange`;
an empty selection is a no-op. -/
def deleteSelectedNotes (st : PluginState) : PluginState × List PREvent :=
  if st.selectedNotes = [] then (st, [])
  else
    let deleted := st.selectedNotes.filterMap (fun i => st.notes.get? i)
    let notes2 := (st.notes.enum.filter (fun p => ¬ p.1 ∈ st.selectedNotes)).map
      (fun p => p.2)
    ({ st with
        notes := notes2
        selectedNotes := []
        usedPitches := updateUsedPitchesFn notes2 },
     deleted.map PREvent.notedelete ++
       [PREvent.selectionchange [], PREvent.noteschange])

/-- The channel-mixing step of `calculateSpectrogramData`: a single channel
is used as is, otherwise the first two channels are averaged samplewise. -/
noncomputable def mixToMono (buffer : PRAudioBuffer) : List ℝ :=
  let left := buffer.channels.getD 0 []
  if buffer.channels.length = 1 then left
  else (List.range left.length).map
    (fun i => (left.getD i 0 + (buffer.channels.getD 1 []).getD i 0) / 2)

/-- `calculateSpectrogramData` from piano-roll.ts: no-op without the
spectrogram option; stereo is mixed to mono by channel averaging; overlap is
clamped to `[0, 0.95]`; `hop = max(1, floor(fftSize * (1 - overlap)))`. -/
noncomputable def calculateSpectrogramData (buffer : PRAudioBuffer)
    (st : PluginState) : PluginState :=
  if st.options.showSpectrogram = false then st
  else
    let audioData := mixToMono buffer
    let overlap := max 0 (min (95 / 100 : ℚ) st.options.spectrogramOverlap)
    let hopSize : ℕ := max 1 (⌊(st.currentFftSize : ℚ) * (1 - overlap)⌋.toNat)
    { st with
      cachedAudioBuffer := some buffer
      audioSampleRate := buffer.sampleRate
      spectrogramData :=
        calculateSpectrogram audioData buffer.sampleRate st.currentFftSize hopSize }

/-- The fixed valid FFT sizes of `setFftSize`. -/
def validFftSizes : List ℕ := [256, 512, 1024, 2048, 4096, 8192]

/-- `setFftSize` from piano-roll.ts: invalid sizes warn and change nothing;
valid sizes update `currentFftSize` and recompute the spectrogram when an
audio buffer is cached. -/
noncomputable def setFftSize (size : ℕ) (st : PluginState) :
    PluginState × List PRWarning :=
  if size ∈ validFftSizes then
    let st1 := { st with currentFftSize := size }
    (match st.cachedAudioBuffer with
     | some buf => calculateSpectrogramData buf st1
     | none => st1, [])
  else (st, [PRWarning.invalidFftSize size])

/-- A typical resolved option set: auto pitch range, height 128 px,
spectrogram off, default 0.75 overlap. -/
def testOptions : PluginOptions :=
  ⟨none, none, 128, false, 3 / 4⟩

/-- An idle plugin state with no notes. -/
def testState : PluginState :=
  { options := testOptions, notes := [], minPitch := 0, maxPitch := 127,
    trackCount := 0, isFolded := false, usedPitches := [], snapEnabled := false,
    previewEnabled := false, spectrogramData := [], audioSampleRate := 44100,
    currentFftSize := 1024, cachedAudioBuffer := none, dragState := none,
    selectedNotes := [] }

/-- A host with 10 s of audio rendered at 100 px. -/
def testHost : Host := ⟨10, 100⟩

/-- The note invariant of the data model: `offset = onset + duration`. -/
def offsetInv (n : PianoRollNote) : Prop :=
  n.offset = n.onset + n.duration

/-- The inputs on which normalization preserves the offset invariant: a
supplied offset/duration pair must be consistent, and an offset supplied
alone must be non-zero (JS truthiness sends a zero offset to the 0.1 default
duration) unless it happens to equal `onset + 0.1`. -/
def consistentInput (input : PianoRollNoteInput) : Prop :=
  match input.duration, input.offset with
  | some d, some o => o = input.onset + d
  | none, some o => o ≠ 0 ∨ o = input.onset + 0.1
  | _, _ => True

/-- Multi-drag snapshots are consistent with the live notes' durations (drag
moves never change a duration, so this holds in every reachable state). -/
def multiDragDurationsIntact (st : PluginState) : Prop :=
  ∀ ds, st.dragState = some ds → ∀ pairs, ds.multiDrag = some pairs →
    ∀ pair ∈ pairs, (st.notes.getD pair.1 default).duration = pair.2.duration

/-- A dragged note used by the C3 witness. -/
def c3note : PianoRollNote :=
  ⟨60, "C4", 0, 1, 1, 4/5, 0, 0, none⟩

/-- The same note moved up one semitone. -/
def c3noteMoved : PianoRollNote :=
  ⟨61, "C#4", 0, 1, 1, 4/5, 0, 0, none⟩

/-- A single-note move-drag state over `c3note`'s snapshot. -/
def c3drag : DragState :=
  ⟨0, c3note, DragMode.move, 0, 0, 0, 0, 60, none⟩

/-- Plugin state at the end of a drag that changed the pitch. -/
def c3stateChanged : PluginState :=
  { testState with notes := [c3noteMoved], usedPitches := [60],
                   dragState := some c3drag }

/-- Plugin state at the end of a drag with zero net displacement. -/
def c3stateUnchanged : PluginState :=
  { testState with notes := [c3note], usedPitches := [60],
                   dragState := some c3drag }

/-- The continuous (unrounded) pointer pitch at `y` in unfolded mode, i.e.
the `P` of the claim `pitch = clamp(round(P))`. -/
def rawPitchAt (y : ℚ) (params : CoordinateParams) : ℚ :=
  (params.minPitch : ℚ) + (params.height - y) /
    (params.height / ((getDisplayPitches params).length : ℚ)) - 1

/-- The note the fallback (non-snap) double-click path constructs. -/
def doubleClickNote (x y : ℚ) (host : Host) (st : PluginState) : PianoRollNote :=
  { pitch := pxToPitch y (mkParams st host)
    name := pitchToNoteName (pxToPitch y (mkParams st host))
    onset := pluginPxToTime host x
    offset := min (pluginPxToTime host x + 0.25) host.duration
    duration := min (pluginPxToTime host x + 0.25) host.duration - pluginPxToTime host x
    velocity := 0.8
    track := 0
    channel := 0
    color := none }

/-- State with one note (pitch 60, onset 0, offset 1) for the C4 hit case. -/
def c4hitState : PluginState :=
  { testState with notes := [c3note], usedPitches := [60] }

/-- `usedPitches` is the sorted-ascending set of distinct pitches present in
the note list. -/
def usedPitchesInv (st : PluginState) : Prop :=
  List.Sorted (· < ·) st.usedPitches ∧
  ∀ p : ℤ, p ∈ st.usedPitches ↔ p ∈ st.notes.map (fun n => n.pitch)

/-- The state the C5 counterexample starts from: one note at pitch 60, a
single-note move-drag in progress. -/
def c5state : PluginState :=
  { testState with notes := [c3note], usedPitches := [60],
                   dragState := some c3drag }

/-- The body of one frame of `calculateSpectrogram`: window the segment
starting at `frame * hopSize`, FFT it, take the first `fftSize/2` magnitudes. -/
noncomputable def spectrogramFrame (audioData : List ℝ) (fftSize hopSize frame : ℕ) :
    List ℝ :=
  let window := hannWindow fftSize
  let start := frame * hopSize
  let re := (List.range fftSize).map
    (fun i => audioData.getD (start + i) 0 * window.getD i 0)
  let im := List.replicate fftSize (0 : ℝ)
  let p := fft re im
  (List.range (fftSize / 2)).map (fun i =>
    Real.sqrt (p.1.getD i 0 * p.1.getD i 0 + p.2.getD i 0 * p.2.getD i 0))

/-- The CSV text of the claim: two vocadito rows with Hz pitches. -/
def vocaditoCSV : List Char := "0.0,440,0.5\n1.0,880,0.25".data

/-- The claim's parse options: `{pitchIsHz: true}` over the defaults. -/
def vocaditoOpts : CSVParseOptions := ⟨false, 0, 1, 2, some true, ','⟩

/- =========================== THEOREMS ============================ -/

theorem clampPitch_intCast (p : ℤ) : clampPitch (p : ℚ) = clampPitchInt p := by
  simp [clampPitch, clampPitchInt]

theorem getDisplayPitches_unfolded (params : CoordinateParams)
    (hf : params.isFolded = false) :
    getDisplayPitches params =
      (List.range (params.maxPitch - params.minPitch + 1).toNat).map
        (fun (i : ℕ) => params.minPitch + (i : ℤ)) := by
  rw [getDisplayPitches, if_neg (by simp [hf])]

theorem mem_getDisplayPitches_unfolded {params : CoordinateParams} {p : ℤ}
    (hf : params.isFolded = false) (hp : p ∈ getDisplayPitches params) :
    params.minPitch ≤ p ∧ p ≤ params.maxPitch := by
  rw [getDisplayPitches_unfolded params hf] at hp
  obtain ⟨i, hi, rfl⟩ := List.mem_map.mp hp
  have h2 : i < (params.maxPitch - params.minPitch + 1).toNat := List.mem_range.mp hi
  omega

theorem mem_getDisplayPitches_of_range {params : CoordinateParams}
    (hf : params.isFolded = false) {p : ℤ}
    (h1 : params.minPitch ≤ p) (h2 : p ≤ params.maxPitch) :
    p ∈ getDisplayPitches params := by
  rw [getDisplayPitches_unfolded params hf]
  refine List.mem_map.mpr ⟨(p - params.minPitch).toNat, List.mem_range.mpr ?_, ?_⟩ <;>
    omega

theorem getDisplayPitches_ne_nil_unfolded {params : CoordinateParams}
    (hf : params.isFolded = false) (h : params.minPitch ≤ params.maxPitch) :
    getDisplayPitches params ≠ [] := by
  intro hc
  have hmem := mem_getDisplayPitches_of_range hf (le_refl params.minPitch) h
  rw [hc] at hmem
  exact List.not_mem_nil _ hmem

theorem indexOf?_lt_length {l : List ℤ} {p : ℤ} {idx : ℕ}
    (h : l.indexOf? p = some idx) : idx < l.length := by
  simp only [List.indexOf?] at h
  rw [List.findIdx?_eq_some_iff_findIdx_eq] at h
  exact h.1

/-- In the folded branch, feeding `pitchToPx`'s output back into `pxToPitch`
recovers the row index plus one (exact rational arithmetic, `nh ≠ 0`). -/
theorem pxToPitch_pitchToPx_folded (params : CoordinateParams)
    (hf : params.isFolded = true) (hh : 0 < params.height)
    (hne : getDisplayPitches params ≠ []) (p : ℤ) (idx : ℕ)
    (hidx : (getDisplayPitches params).indexOf? p = some idx) :
    pxToPitch (pitchToPx p params) params =
      (getDisplayPitches params).getD
        (min (idx + 1) ((getDisplayPitches params).length - 1)) 0 := by
  have hlen : 0 < (getDisplayPitches params).length := List.length_pos.mpr hne
  have hlenQ : ((getDisplayPitches params).length : ℚ) ≠ 0 := by
    exact_mod_cast Nat.pos_iff_ne_zero.mp hlen
  have hnh : params.height / ((getDisplayPitches params).length : ℚ) ≠ 0 :=
    div_ne_zero (ne_of_gt hh) hlenQ
  have hidxlt : idx < (getDisplayPitches params).length := indexOf?_lt_length hidx
  unfold pitchToPx pxToPitch
  simp only [hf, if_true, hidx]
  have hdiv :
      (params.height - (params.height - ((idx : ℚ) + 1) *
        (params.height / ((getDisplayPitches params).length : ℚ)))) /
        (params.height / ((getDisplayPitches params).length : ℚ)) = (idx : ℚ) + 1 := by
    field_simp
  rw [hdiv]
  have hcast : ((idx : ℚ) + 1) = (((idx : ℤ) + 1 : ℤ) : ℚ) := by push_cast; ring
  rw [hcast, Int.floor_intCast]
  have hnotneg : ¬ ((idx : ℤ) + 1 < 0) := by omega
  rw [if_neg hnotneg]
  by_cases hend : (idx : ℤ) + 1 ≥ ((getDisplayPitches params).length : ℤ)
  · rw [if_pos hend]
    have : idx + 1 = (getDisplayPitches params).length := by omega
    have hmin : min (idx + 1) ((getDisplayPitches params).length - 1) =
        (getDisplayPitches params).length - 1 := by omega
    rw [hmin]
  · rw [if_neg hend]
    have hlt : idx + 1 < (getDisplayPitches params).length := by omega
    have hmin : min (idx + 1) ((getDisplayPitches params).length - 1) = idx + 1 := by
      omega
    have htoNat : ((idx : ℤ) + 1).toNat = idx + 1 := by omega
    rw [hmin, htoNat]

/-- In the unfolded branch the round-trip is exact for in-range MIDI pitches. -/
theorem pxToPitch_pitchToPx_unfolded (params : CoordinateParams)
    (hf : params.isFolded = false) (hh : 0 < params.height)
    (hne : getDisplayPitches params ≠ []) (p : ℤ)
    (hp0 : 0 ≤ p) (hp127 : p ≤ 127) :
    pxToPitch (pitchToPx p params) params = p := by
  have hlen : 0 < (getDisplayPitches params).length := List.length_pos.mpr hne
  have hlenQ : ((getDisplayPitches params).length : ℚ) ≠ 0 := by
    exact_mod_cast Nat.pos_iff_ne_zero.mp hlen
  have hnh : params.height / ((getDisplayPitches params).length : ℚ) ≠ 0 :=
    div_ne_zero (ne_of_gt hh) hlenQ
  unfold pitchToPx pxToPitch
  simp only [hf, Bool.false_eq_true, if_false]
  have hdiv :
      (params.minPitch : ℚ) +
        (params.height - (params.height - (((p : ℚ) - (params.minPitch : ℚ) + 1) *
          (params.height / ((getDisplayPitches params).length : ℚ))))) /
        (params.height / ((getDisplayPitches params).length : ℚ)) - 1 = (p : ℚ) := by
    field_simp
    ring
  rw [hdiv]
  rw [round_intCast]
  simp only [clampPitch, round_intCast]
  omega

/-- C1: the claimed exact round-trip `pxToPitch (pitchToPx p) = p` for every
display pitch is FALSE: in folded mode the floor bucketing lands one row
above. With `height = 2` and `usedPitches = [60, 62]` (folded), pitch 60 maps
to `y = 1` and back to pitch 62. -/
theorem c1_roundtrip_counterexample :
    0 < (CoordinateParams.mk 100 2 10 0 127 true [60, 62]).height ∧
    getDisplayPitches (CoordinateParams.mk 100 2 10 0 127 true [60, 62]) ≠ [] ∧
    (60 : ℤ) ∈ getDisplayPitches (CoordinateParams.mk 100 2 10 0 127 true [60, 62]) ∧
    pxToPitch (pitchToPx 60 (CoordinateParams.mk 100 2 10 0 127 true [60, 62]))
      (CoordinateParams.mk 100 2 10 0 127 true [60, 62]) = 62 := by
  refine ⟨by norm_num, ?_, ?_, ?_⟩
  · simp [getDisplayPitches]
  · simp [getDisplayPitches]
  · have h1 : getDisplayPitches (CoordinateParams.mk 100 2 10 0 127 true [60, 62]) =
        [60, 62] := by
      simp [getDisplayPitches]
    have h2 : pitchToPx 60 (CoordinateParams.mk 100 2 10 0 127 true [60, 62]) = 1 := by
      unfold pitchToPx
      rw [h1]
      norm_num [List.indexOf?, List.findIdx?]
    rw [h2]
    unfold pxToPitch
    rw [h1]
    norm_num

/-- C1 (amended): for every `CoordinateParams` with positive height and
non-empty `displayPitches`, and every pitch `p` in `displayPitches`:
in unfolded mode with `p ∈ [0,127]` the round-trip
`pxToPitch (pitchToPx p) = p` is exact; in folded mode the round-trip instead
returns `displayPitches[min(idx+1, count-1)]` where `idx` is the first index
of `p` — i.e. the display pitch one row above `p`, so it equals `p` exactly
when `p` is the last (highest) display pitch. -/
theorem c1_roundtrip_amended (params : CoordinateParams) (hh : 0 < params.height)
    (hne : getDisplayPitches params ≠ []) (p : ℤ) (_hp : p ∈ getDisplayPitches params) :
    (params.isFolded = false → 0 ≤ p → p ≤ 127 →
      pxToPitch (pitchToPx p params) params = p) ∧
    (params.isFolded = true → ∀ idx, (getDisplayPitches params).indexOf? p = some idx →
      pxToPitch (pitchToPx p params) params =
        (getDisplayPitches params).getD
          (min (idx + 1) ((getDisplayPitches params).length - 1)) 0) := by
  constructor
  · intro hf hp0 hp127
    exact pxToPitch_pitchToPx_unfolded params hf hh hne p hp0 hp127
  · intro hf idx hidx
    exact pxToPitch_pitchToPx_folded params hf hh hne p idx hidx

theorem floor_bounds_255 {x : ℝ} (h0 : 0 ≤ x) (h1 : x ≤ 255) :
    0 ≤ ⌊x⌋ ∧ ⌊x⌋ ≤ 255 := by
  refine ⟨Int.floor_nonneg.mpr h0, ?_⟩
  have h2 : (⌊x⌋ : ℝ) ≤ 255 := le_trans (Int.floor_le x) h1
  exact_mod_cast h2

theorem clamp_bounds_255 (r : ℤ) : 0 ≤ min 255 (max 0 r) ∧ min 255 (max 0 r) ≤ 255 :=
  ⟨le_min (by norm_num) (le_max_left 0 r), min_le_left 255 _⟩

/-- C10: `getSpectrogramColor` is total and, for every real input value
(including values outside `[0,1]`) and every color map, returns an RGB triple
whose three components are integers in `[0, 255]`. -/
theorem c10_spectrogram_color_in_range (value : ℝ) (colorMap : ColorMapType) :
    rgbInRange (getSpectrogramColor value colorMap) := by
  simp only [getSpectrogramColor, rgbInRange]
  have hv0 : (0 : ℝ) ≤ max 0 (min 1 value) := le_max_left 0 _
  have hv1 : max 0 (min 1 value) ≤ 1 := max_le (by norm_num) (min_le_left 1 value)
  set v := max 0 (min 1 value) with hv
  cases colorMap with
  | grayscale =>
    have h := floor_bounds_255 (x := v * 255) (by nlinarith) (by nlinarith)
    exact ⟨h.1, h.2, h.1, h.2, h.1, h.2⟩
  | viridis =>
    have h1 := clamp_bounds_255 ⌊68 + v * 185⌋
    have h2 := clamp_bounds_255 ⌊1 + v * 203⌋
    have h3 := clamp_bounds_255 ⌊84 + v * (253 - 84) * (1 - v * 0.5)⌋
    exact ⟨h1.1, h1.2, h2.1, h2.2, h3.1, h3.2⟩
  | default =>
    by_cases hb1 : v < 0.25
    · rw [if_pos hb1]
      have ht0 : (0 : ℝ) ≤ v / 0.25 := div_nonneg hv0 (by norm_num)
      have ht1 : v / 0.25 < 1 := by rw [div_lt_one (by norm_num)]; linarith
      have hr := floor_bounds_255 (x := v / 0.25 * 60)
        (by nlinarith) (by nlinarith)
      have hbl := floor_bounds_255 (x := v / 0.25 * 100)
        (by nlinarith) (by nlinarith)
      exact ⟨hr.1, hr.2, le_refl 0, by norm_num, hbl.1, hbl.2⟩
    · rw [if_neg hb1]
      push_neg at hb1
      by_cases hb2 : v < 0.5
      · rw [if_pos hb2]
        have ht0 : (0 : ℝ) ≤ (v - 0.25) / 0.25 := div_nonneg (by linarith) (by norm_num)
        have ht1 : (v - 0.25) / 0.25 < 1 := by rw [div_lt_one (by norm_num)]; linarith
        have hr := floor_bounds_255 (x := 60 - (v - 0.25) / 0.25 * 30)
          (by nlinarith) (by nlinarith)
        have hg := floor_bounds_255 (x := (v - 0.25) / 0.25 * 80)
          (by nlinarith) (by nlinarith)
        have hbl := floor_bounds_255 (x := 100 + (v - 0.25) / 0.25 * 155)
          (by nlinarith) (by nlinarith)
        exact ⟨hr.1, hr.2, hg.1, hg.2, hbl.1, hbl.2⟩
      · rw [if_neg hb2]
        push_neg at hb2
        by_cases hb3 : v < 0.75
        · rw [if_pos hb3]
          have ht0 : (0 : ℝ) ≤ (v - 0.5) / 0.25 := div_nonneg (by linarith) (by norm_num)
          have ht1 : (v - 0.5) / 0.25 < 1 := by rw [div_lt_one (by norm_num)]; linarith
          have hr := floor_bounds_255 (x := 30 + (v - 0.5) / 0.25 * 225)
            (by nlinarith) (by nlinarith)
          have hg := floor_bounds_255 (x := 80 + (v - 0.5) / 0.25 * 100)
            (by nlinarith) (by nlinarith)
          have hbl := floor_bounds_255 (x := 255 - (v - 0.5) / 0.25 * 200)
            (by nlinarith) (by nlinarith)
          exact ⟨hr.1, hr.2, hg.1, hg.2, hbl.1, hbl.2⟩
        · rw [if_neg hb3]
          push_neg at hb3
          have ht0 : (0 : ℝ) ≤ (v - 0.75) / 0.25 := div_nonneg (by linarith) (by norm_num)
          have ht1 : (v - 0.75) / 0.25 ≤ 1 := by
            rw [div_le_one (by norm_num)]; linarith
          have hg := floor_bounds_255 (x := 180 + (v - 0.75) / 0.25 * 75)
            (by nlinarith) (by nlinarith)
          have hbl := floor_bounds_255 (x := 55 + (v - 0.75) / 0.25 * 200)
            (by nlinarith) (by nlinarith)
          exact ⟨by norm_num, by norm_num, hg.1, hg.2, hbl.1, hbl.2⟩

/-- C1 witness: concrete instances of the amended round-trip. Unfolded
`[0,127]` range recovers pitch 60 exactly; folded `[60, 62]` recovers 62
(the last display pitch) exactly. -/
theorem c1_roundtrip_amended_witness :
    pxToPitch (pitchToPx 60 (CoordinateParams.mk 100 128 10 0 127 false []))
      (CoordinateParams.mk 100 128 10 0 127 false []) = 60 ∧
    pxToPitch (pitchToPx 62 (CoordinateParams.mk 100 2 10 0 127 true [60, 62]))
      (CoordinateParams.mk 100 2 10 0 127 true [60, 62]) = 62 := by
  constructor
  · exact (c1_roundtrip_amended (CoordinateParams.mk 100 128 10 0 127 false [])
      (by norm_num) (getDisplayPitches_ne_nil_unfolded rfl (by norm_num)) 60
      (mem_getDisplayPitches_of_range rfl (by norm_num) (by norm_num))).1 rfl
      (by norm_num) (by norm_num)
  · have h := (c1_roundtrip_amended (CoordinateParams.mk 100 2 10 0 127 true [60, 62])
      (by norm_num) (by simp [getDisplayPitches]) 62
      (by simp [getDisplayPitches])).2 rfl 1
        (by norm_num [List.indexOf?, List.findIdx?])
    simpa using h

/-- `calculateSpectrogramData` never touches `currentFftSize`. -/
theorem calculateSpectrogramData_currentFftSize (buffer : PRAudioBuffer)
    (st : PluginState) :
    (calculateSpectrogramData buffer st).currentFftSize = st.currentFftSize := by
  unfold calculateSpectrogramData
  by_cases h : st.options.showSpectrogram = false
  · rw [if_pos h]
  · rw [if_neg h]

/-- C9: the claim that every coordinate function degrades to 0 on a
zero/absent host is FALSE for `pxToTime`: with `width = 0` the division is
unguarded and the JS result is non-finite (Infinity/NaN, modelled `none`),
not 0. -/
theorem c9_pxToTime_counterexample :
    pxToTime 5 (CoordinateParams.mk 0 128 10 0 127 false []) = none ∧
    pxToTime 5 (CoordinateParams.mk 0 128 10 0 127 false []) ≠ some 0 := by
  constructor
  · simp [pxToTime]
  · simp [pxToTime]

/-- C9 (amended): `timeToPx` returns 0 when the duration is 0, and the
plugin-level `pxToTime` returns 0 when the host is absent; but when the
display width is 0, `pxToTime` (both the pure version and the plugin version
with a present host) performs the division and yields a non-finite value
(Infinity/NaN, modelled `none`) instead of 0. -/
theorem c9_zero_guards_amended :
    (∀ (t : ℚ) (params : CoordinateParams), params.duration = 0 →
      timeToPx t params = 0) ∧
    (∀ px : ℚ, pxToTimePlugin none px = some 0) ∧
    (∀ (px : ℚ) (params : CoordinateParams), params.width = 0 →
      pxToTime px params = none) ∧
    (∀ (px : ℚ) (host : Host), host.scrollWidth = 0 →
      pxToTimePlugin (some host) px = none) := by
  refine ⟨?_, ?_, ?_, ?_⟩
  · intro t params h
    simp [timeToPx, h]
  · intro px
    simp [pxToTimePlugin]
  · intro px params h
    simp [pxToTime, h]
  · intro px host h
    simp [pxToTimePlugin, h]

/-- C9 witness: a zero-duration `timeToPx` call and a zero-width `pxToTime`
call at concrete inputs. -/
theorem c9_zero_guards_amended_witness :
    timeToPx 3 (CoordinateParams.mk 100 128 0 0 127 false []) = 0 ∧
    pxToTime 7 (CoordinateParams.mk 0 128 10 0 127 false []) = none ∧
    pxToTimePlugin (some (Host.mk 10 0)) 7 = none := by
  refine ⟨?_, ?_, ?_⟩
  · exact c9_zero_guards_amended.1 3 (CoordinateParams.mk 100 128 0 0 127 false []) rfl
  · exact c9_zero_guards_amended.2.2.1 7 (CoordinateParams.mk 0 128 10 0 127 false []) rfl
  · exact c9_zero_guards_amended.2.2.2 7 (Host.mk 10 0) rfl

/-- C8: `setFftSize` with a size outside {256, 512, 1024, 2048, 4096, 8192}
leaves the whole state (in particular `currentFftSize` and the spectrogram
frame matrix) unchanged and logs a warning (it never throws: the operation is
a total function); a valid size updates `currentFftSize` to it. -/
theorem c8_setFftSize (size : ℕ) (st : PluginState) :
    (size ∉ validFftSizes →
      (setFftSize size st).1 = st ∧
      (setFftSize size st).2 = [PRWarning.invalidFftSize size]) ∧
    (size ∈ validFftSizes → (setFftSize size st).1.currentFftSize = size) := by
  constructor
  · intro h
    unfold setFftSize
    rw [if_neg h]
    exact ⟨rfl, rfl⟩
  · intro h
    unfold setFftSize
    rw [if_pos h]
    cases hc : st.cachedAudioBuffer with
    | none => rfl
    | some buf =>
      simp only
      rw [calculateSpectrogramData_currentFftSize]

/-- C8 witness: size 300 is rejected without any state change; size 2048 is
accepted. -/
theorem c8_setFftSize_witness :
    (setFftSize 300 testState).1 = testState ∧
    (setFftSize 300 testState).2 = [PRWarning.invalidFftSize 300] ∧
    (setFftSize 2048 testState).1.currentFftSize = 2048 := by
  have h1 := (c8_setFftSize 300 testState).1 (by decide)
  have h2 := (c8_setFftSize 2048 testState).2 (by decide)
  exact ⟨h1.1, h1.2, h2⟩

/-- `detectPitchRange` only updates the pitch range bounds. -/
theorem detectPitchRange_notes (s : PluginState) :
    (detectPitchRange s).notes = s.notes := by
  unfold detectPitchRange
  cases s.notes.map (fun n => n.pitch) <;> rfl

theorem detectPitchRange_usedPitches (s : PluginState) :
    (detectPitchRange s).usedPitches = s.usedPitches := by
  unfold detectPitchRange
  cases s.notes.map (fun n => n.pitch) <;> rfl

theorem normalizeNote_offsetInv (input : PianoRollNoteInput) (hz : Bool)
    (h : consistentInput input) : offsetInv (normalizeNote input hz) := by
  obtain ⟨p, onset, off, dur, vel, tr, ch, co⟩ := input
  cases dur with
  | some d =>
    cases off with
    | some o =>
      simp only [consistentInput] at h
      simp [offsetInv, normalizeNote, h]
    | none => simp [offsetInv, normalizeNote]
  | none =>
    cases off with
    | some o =>
      simp only [consistentInput] at h
      by_cases ho : o = 0
      · rcases h with h | h
        · exact absurd ho h
        · subst ho
          simp only [offsetInv, normalizeNote]
          norm_num
          linarith [h]
      · simp [offsetInv, normalizeNote, ho]
    | none => simp [offsetInv, normalizeNote]

theorem getD_set_duration {ns : List PianoRollNote} {i : ℕ} {v : PianoRollNote}
    (hdur : v.duration = (ns.getD i default).duration) (j : ℕ) :
    ((ns.set i v).getD j default).duration = (ns.getD j default).duration := by
  by_cases hij : i = j
  · subst hij
    by_cases hlen : i < ns.length
    · rw [List.getD_eq_getElem?_getD, List.getElem?_set_self hlen, Option.getD_some,
        hdur]
    · rw [List.set_eq_of_length_le (by omega)]
  · rw [List.getD_eq_getElem?_getD, List.getElem?_set_ne hij,
      ← List.getD_eq_getElem?_getD]

/-- The multi-drag fold preserves every note's duration and keeps the offset
invariant, provided each snapshot duration matches the live note's. -/
theorem multiDrag_foldl_offsetInv (host : Host) (st : PluginState)
    (deltaTime : ℚ) (deltaPitch : ℤ)
    (pairs : List (ℕ × PianoRollNote))
    (hdur : ∀ pair ∈ pairs, (st.notes.getD pair.1 default).duration = pair.2.duration)
    (hinv : ∀ n ∈ st.notes, offsetInv n) :
    ∀ n ∈ pairs.foldl (fun ns pair =>
        ns.set pair.1
          { ns.getD pair.1 default with
            onset := max 0 (min (host.duration - pair.2.duration)
              (pair.2.onset + deltaTime))
            offset := max 0 (min (host.duration - pair.2.duration)
              (pair.2.onset + deltaTime)) + pair.2.duration
            pitch := clampPitchInt (pair.2.pitch + deltaPitch)
            name := if (ns.getD pair.1 default).pitch ≠
                        clampPitchInt (pair.2.pitch + deltaPitch) then
                      pitchToNoteName (clampPitchInt (pair.2.pitch + deltaPitch))
                    else (ns.getD pair.1 default).name }) st.notes,
      offsetInv n := by
  suffices h : ∀ (ps : List (ℕ × PianoRollNote)) (ns : List PianoRollNote),
      (∀ j, (ns.getD j default).duration = (st.notes.getD j default).duration) →
      (∀ n ∈ ns, offsetInv n) →
      (∀ pair ∈ ps, (st.notes.getD pair.1 default).duration = pair.2.duration) →
      ∀ n ∈ ps.foldl (fun ns pair =>
          ns.set pair.1
            { ns.getD pair.1 default with
              onset := max 0 (min (host.duration - pair.2.duration)
                (pair.2.onset + deltaTime))
              offset := max 0 (min (host.duration - pair.2.duration)
                (pair.2.onset + deltaTime)) + pair.2.duration
              pitch := clampPitchInt (pair.2.pitch + deltaPitch)
              name := if (ns.getD pair.1 default).pitch ≠
                          clampPitchInt (pair.2.pitch + deltaPitch) then
                        pitchToNoteName (clampPitchInt (pair.2.pitch + deltaPitch))
                      else (ns.getD pair.1 default).name }) ns,
        offsetInv n by
    exact h pairs st.notes (fun _ => rfl) hinv hdur
  intro ps
  induction ps with
  | nil =>
    intro ns _ hnsInv _
    simpa using hnsInv
  | cons pair ps ih =>
    intro ns hnsDur hnsInv hps
    simp only [List.foldl_cons]
    have hvdur : ({ ns.getD pair.1 default with
        onset := max 0 (min (host.duration - pair.2.duration)
          (pair.2.onset + deltaTime))
        offset := max 0 (min (host.duration - pair.2.duration)
          (pair.2.onset + deltaTime)) + pair.2.duration
        pitch := clampPitchInt (pair.2.pitch + deltaPitch)
        name := if (ns.getD pair.1 default).pitch ≠
                    clampPitchInt (pair.2.pitch + deltaPitch) then
                  pitchToNoteName (clampPitchInt (pair.2.pitch + deltaPitch))
                else (ns.getD pair.1 default).name } :
        PianoRollNote).duration = (ns.getD pair.1 default).duration := rfl
    refine ih _ ?_ ?_ ?_
    · intro j
      rw [getD_set_duration hvdur j]
      exact hnsDur j
    · intro n hn
      rcases List.mem_or_eq_of_mem_set hn with hmem | rfl
      · exact hnsInv n hmem
      · have hdur2 : (ns.getD pair.1 default).duration = pair.2.duration := by
          rw [hnsDur pair.1]
          exact hps pair (by simp)
        simp only [offsetInv]
        rw [hdur2]
    · intro q hq
      exact hps q (by simp [hq])

/-- C2: the claimed invariant FAILS after normalization of an input that
supplies both an offset and a duration inconsistently: `{onset 0, offset 1,
duration 0.5}` normalizes to a note with `offset = 1 ≠ 0 + 0.5`. -/
theorem c2_offset_invariant_counterexample :
    ¬ offsetInv (normalizeNote (PianoRollNoteInput.mk 60 0 (some 1) (some (1/2))
      none none none none) false) := by
  simp only [offsetInv, normalizeNote]
  norm_num

/-- C2 (amended): `offset = onset + duration` holds for every note after
double-click creation, after every drag-move and drag-resize update (with
live multi-drag snapshots), and after normalization in `loadNotes`/`loadCSV`
PROVIDED the input does not supply an offset/duration pair with
`offset ≠ onset + duration` (and a lone supplied offset is non-zero);
inputs breaking that proviso produce notes violating the invariant. -/
theorem c2_offset_invariant_amended :
    (∀ (input : PianoRollNoteInput) (hz : Bool), consistentInput input →
      offsetInv (normalizeNote input hz)) ∧
    (∀ (inputs : List PianoRollNoteInput) (hz : Bool) (st : PluginState),
      (∀ i ∈ inputs, consistentInput i) →
      ∀ n ∈ (loadNotes inputs hz st).1.notes, offsetInv n) ∧
    (∀ (x y : ℚ) (host : Host) (st : PluginState),
      (∀ n ∈ st.notes, offsetInv n) →
      ∀ n ∈ (onDoubleClick x y host st).1.notes, offsetInv n) ∧
    (∀ (x y : ℚ) (host : Host) (st : PluginState),
      multiDragDurationsIntact st →
      (∀ n ∈ st.notes, offsetInv n) →
      ∀ n ∈ (onDragMove x y host st).notes, offsetInv n) := by
  refine ⟨normalizeNote_offsetInv, ?_, ?_, ?_⟩
  · intro inputs hz st hcons n hn
    simp only [loadNotes, detectPitchRange_notes] at hn
    have hperm := List.mergeSort_perm
      ((inputs.map (fun i => normalizeNote i hz))) onsetLE
    have hn2 : n ∈ inputs.map (fun i => normalizeNote i hz) := hperm.mem_iff.mp hn
    obtain ⟨i, hi, rfl⟩ := List.mem_map.mp hn2
    exact normalizeNote_offsetInv i hz (hcons i hi)
  · intro x y host st hinv n hn
    unfold onDoubleClick at hn
    cases hfind : findNoteAtPosition x y host st with
    | some m =>
      rw [hfind] at hn
      exact hinv n hn
    | none =>
      rw [hfind] at hn
      dsimp only at hn
      have hn2 := (List.mergeSort_perm _ onsetLE).mem_iff.mp hn
      rcases List.mem_append.mp hn2 with hmem | hnew
      · exact hinv n hmem
      · rw [List.mem_singleton] at hnew
        subst hnew
        show _ = _ + _
        ring
  · intro x y host st hmulti hinv n hn
    unfold onDragMove at hn
    cases hds : st.dragState with
    | none =>
      rw [hds] at hn
      exact hinv n hn
    | some ds =>
      rw [hds] at hn
      dsimp only at hn
      cases hmode : ds.mode with
      | move =>
        rw [hmode] at hn
        dsimp only at hn
        cases hmd : ds.multiDrag with
        | some pairs =>
          rw [hmd] at hn
          dsimp only at hn
          exact multiDrag_foldl_offsetInv host st _ _ pairs
            (hmulti ds hds pairs hmd) hinv n hn
        | none =>
          rw [hmd] at hn
          dsimp only at hn
          rcases List.mem_or_eq_of_mem_set hn with hmem | rfl
          · exact hinv n hmem
          · by_cases hp : (st.notes.getD ds.noteIdx default).pitch ≠
                pxToPitch y (mkParams st host)
            · rw [if_pos hp]
              simp only [offsetInv]
            · rw [if_neg hp]
              simp only [offsetInv]
      | resizeLeft =>
        rw [hmode] at hn
        dsimp only at hn
        rcases List.mem_or_eq_of_mem_set hn with hmem | rfl
        · exact hinv n hmem
        · simp only [offsetInv]
          ring
      | resizeRight =>
        rw [hmode] at hn
        dsimp only at hn
        rcases List.mem_or_eq_of_mem_set hn with hmem | rfl
        · exact hinv n hmem
        · simp only [offsetInv]
          ring

/-- C2 witness: the invariant after a concrete normalization, load, creation
and drag-move. -/
theorem c2_offset_invariant_amended_witness :
    offsetInv (normalizeNote (PianoRollNoteInput.mk 60 0 none (some (1/2))
      none none none none) false) ∧
    (∀ n ∈ (loadNotes [PianoRollNoteInput.mk 60 0 none (some (1/2))
      none none none none] false testState).1.notes, offsetInv n) ∧
    (∀ n ∈ (onDoubleClick 1 1 testHost testState).1.notes, offsetInv n) ∧
    (∀ n ∈ (onDragMove 1 1 testHost testState).notes, offsetInv n) := by
  refine ⟨?_, ?_, ?_, ?_⟩
  · exact c2_offset_invariant_amended.1 _ false (by simp [consistentInput])
  · exact c2_offset_invariant_amended.2.1 _ false testState
      (by intro i hi; rw [List.mem_singleton] at hi; subst hi
          simp [consistentInput])
  · exact c2_offset_invariant_amended.2.2.1 1 1 testHost testState
      (by intro n hn; simp [testState] at hn)
  · exact c2_offset_invariant_amended.2.2.2 1 1 testHost testState
      (by intro ds hds; simp [testState] at hds)
      (by intro n hn; simp [testState] at hn)

theorem onDragEnd_single_changed (st : PluginState) (ds : DragState)
    (hds : st.dragState = some ds) (hmd : ds.multiDrag = none)
    (hch : (st.notes.getD ds.noteIdx default).onset ≠ ds.originalNote.onset ∨
      (st.notes.getD ds.noteIdx default).offset ≠ ds.originalNote.offset ∨
      (st.notes.getD ds.noteIdx default).pitch ≠ ds.originalNote.pitch) :
    (onDragEnd st).2 =
      (if ds.mode = DragMode.move
       then [PREvent.notedrag (st.notes.getD ds.noteIdx default) ds.originalNote]
       else [PREvent.noteresize (st.notes.getD ds.noteIdx default) ds.originalNote])
      ++ [PREvent.noteschange] := by
  unfold onDragEnd
  rw [hds]
  dsimp only
  rw [hmd]
  dsimp only
  rw [if_pos hch]

theorem onDragEnd_single_unchanged (st : PluginState) (ds : DragState)
    (hds : st.dragState = some ds) (hmd : ds.multiDrag = none)
    (hch : (st.notes.getD ds.noteIdx default).onset = ds.originalNote.onset ∧
      (st.notes.getD ds.noteIdx default).offset = ds.originalNote.offset ∧
      (st.notes.getD ds.noteIdx default).pitch = ds.originalNote.pitch) :
    (onDragEnd st).2 = [] := by
  unfold onDragEnd
  rw [hds]
  dsimp only
  rw [hmd]
  dsimp only
  rw [if_neg (by push_neg; exact ⟨hch.1, hch.2.1, hch.2.2⟩)]

theorem onDragEnd_multi_unchanged (st : PluginState) (ds : DragState)
    (pairs : List (ℕ × PianoRollNote)) (hds : st.dragState = some ds)
    (hmd : ds.multiDrag = some pairs) (hmode : ds.mode = DragMode.move)
    (hall : ∀ pair ∈ pairs,
      (st.notes.getD pair.1 default).onset = pair.2.onset ∧
      (st.notes.getD pair.1 default).offset = pair.2.offset ∧
      (st.notes.getD pair.1 default).pitch = pair.2.pitch) :
    (onDragEnd st).2 = [] := by
  unfold onDragEnd
  rw [hds]
  dsimp only
  rw [hmd, hmode]
  dsimp only
  rw [if_neg (by
    simp only [ne_eq, not_not]
    rw [List.filterMap_eq_nil_iff]
    intro pair hp
    have h := hall pair hp
    rw [if_neg (by push_neg; exact ⟨h.1, h.2.1, h.2.2⟩)])]

/-- C3: releasing a single-note drag whose final onset, offset, or pitch
differs from the original snapshot emits exactly one `notedrag` (move mode)
or `noteresize` (resize mode) carrying the note and its original snapshot,
followed by exactly one `noteschange`; a single-note drag with no net change
emits no events, and a multi-drag in which no note changed also emits no
events. -/
theorem c3_dragend_events :
    (∀ (st : PluginState) (ds : DragState),
      st.dragState = some ds → ds.multiDrag = none →
      (((st.notes.getD ds.noteIdx default).onset ≠ ds.originalNote.onset ∨
        (st.notes.getD ds.noteIdx default).offset ≠ ds.originalNote.offset ∨
        (st.notes.getD ds.noteIdx default).pitch ≠ ds.originalNote.pitch) →
        (onDragEnd st).2 =
          (if ds.mode = DragMode.move
           then [PREvent.notedrag (st.notes.getD ds.noteIdx default) ds.originalNote]
           else [PREvent.noteresize (st.notes.getD ds.noteIdx default) ds.originalNote])
          ++ [PREvent.noteschange]) ∧
      (((st.notes.getD ds.noteIdx default).onset = ds.originalNote.onset ∧
        (st.notes.getD ds.noteIdx default).offset = ds.originalNote.offset ∧
        (st.notes.getD ds.noteIdx default).pitch = ds.originalNote.pitch) →
        (onDragEnd st).2 = [])) ∧
    (∀ (st : PluginState) (ds : DragState) (pairs : List (ℕ × PianoRollNote)),
      st.dragState = some ds → ds.multiDrag = some pairs →
      ds.mode = DragMode.move →
      (∀ pair ∈ pairs,
        (st.notes.getD pair.1 default).onset = pair.2.onset ∧
        (st.notes.getD pair.1 default).offset = pair.2.offset ∧
        (st.notes.getD pair.1 default).pitch = pair.2.pitch) →
      (onDragEnd st).2 = []) := by
  refine ⟨?_, ?_⟩
  · intro st ds hds hmd
    exact ⟨onDragEnd_single_changed st ds hds hmd,
      onDragEnd_single_unchanged st ds hds hmd⟩
  · intro st ds pairs hds hmd hmode hall
    exact onDragEnd_multi_unchanged st ds pairs hds hmd hmode hall

/-- C3 witness: a changed single-note move-drag emits exactly
`[notedrag, noteschange]`; an unchanged one emits nothing. -/
theorem c3_dragend_events_witness :
    (onDragEnd c3stateChanged).2 =
      [PREvent.notedrag c3noteMoved c3note, PREvent.noteschange] ∧
    (onDragEnd c3stateUnchanged).2 = [] := by
  constructor
  · have h := (c3_dragend_events.1 c3stateChanged c3drag rfl rfl).1
      (by simp [c3stateChanged, c3drag, c3noteMoved, c3note, testState])
    simpa [c3stateChanged, c3drag, c3noteMoved, c3note, testState] using h
  · exact (c3_dragend_events.1 c3stateUnchanged c3drag rfl rfl).2
      (by simp [c3stateUnchanged, c3drag, c3note, testState])

/-- In unfolded mode `pxToPitch` is exactly clamp-of-round of the continuous
pointer pitch (the double rounding collapses). -/
theorem pxToPitch_unfolded_eq (y : ℚ) (params : CoordinateParams)
    (hf : params.isFolded = false) :
    pxToPitch y params = clampPitch (rawPitchAt y params) := by
  unfold pxToPitch rawPitchAt
  rw [if_neg (by simp [hf])]
  simp only [clampPitch, round_intCast]

theorem sorted_mergeSort_onsetLE (l : List PianoRollNote) :
    List.Sorted (fun a b => a.onset ≤ b.onset) (l.mergeSort onsetLE) := by
  have h := @List.sorted_mergeSort PianoRollNote onsetLE
    (fun a b c hab hbc => by
      simp only [onsetLE, decide_eq_true_eq] at *
      exact le_trans hab hbc)
    (fun a b => by
      simp only [onsetLE, Bool.or_eq_true, decide_eq_true_eq]
      exact le_total a.onset b.onset)
    l
  exact h.imp (fun hab => by simpa [onsetLE] using hab)

/-- C4: with spectrogram snap unavailable, double-clicking a hit on an
existing note changes nothing and emits nothing; double-clicking empty space
creates exactly one note with `onset = T`, `offset = min(T + 0.25, duration)`,
`velocity = 0.8`, `track = 0`, `channel = 0` and the pointer-row pitch, after
which the note list is sorted ascending by onset; in unfolded mode that pitch
is `clamp(round(P))` of the continuous pointer pitch `P`. -/
theorem c4_double_click (x y : ℚ) (host : Host) (st : PluginState)
    (hsnap : st.snapEnabled = false) :
    ((∃ m, findNoteAtPosition x y host st = some m) →
      onDoubleClick x y host st = (st, [])) ∧
    (findNoteAtPosition x y host st = none →
      (onDoubleClick x y host st).1.notes =
        (st.notes ++ [doubleClickNote x y host st]).mergeSort onsetLE ∧
      (onDoubleClick x y host st).1.notes.length = st.notes.length + 1 ∧
      List.Sorted (fun a b => a.onset ≤ b.onset) (onDoubleClick x y host st).1.notes ∧
      (onDoubleClick x y host st).2 =
        [PREvent.notecreate (doubleClickNote x y host st), PREvent.noteschange]) ∧
    (st.isFolded = false →
      (doubleClickNote x y host st).pitch = clampPitch (rawPitchAt y (mkParams st host))) := by
  refine ⟨?_, ?_, ?_⟩
  · rintro ⟨m, hm⟩
    unfold onDoubleClick
    rw [hm]
  · intro hnone
    have hnotes : onDoubleClick x y host st =
        (let notes := (st.notes ++ [doubleClickNote x y host st]).mergeSort onsetLE
         ({ st with notes := notes, usedPitches := updateUsedPitchesFn notes },
          [PREvent.notecreate (doubleClickNote x y host st), PREvent.noteschange])) := by
      unfold onDoubleClick
      rw [hnone]
      dsimp only
      rw [if_neg (by simp [hsnap])]
      rfl
    rw [hnotes]
    dsimp only
    refine ⟨rfl, ?_, ?_, rfl⟩
    · rw [List.length_mergeSort, List.length_append, List.length_singleton]
    · exact sorted_mergeSort_onsetLE _
  · intro hf
    show pxToPitch y (mkParams st host) = _
    exact pxToPitch_unfolded_eq y (mkParams st host) hf

theorem c4_displayPitches_len :
    (getDisplayPitches (mkParams c4hitState testHost)).length = 128 := by
  rw [getDisplayPitches_unfolded _ rfl]
  rw [List.length_map, List.length_range]
  rfl

theorem c4_hit_eval :
    findNoteAtPosition 5 67 testHost c4hitState = some c3note := by
  have hnotes : c4hitState.notes = [c3note] := rfl
  unfold findNoteAtPosition
  rw [hnotes]
  rw [List.find?_cons_of_pos]
  unfold noteHit
  rw [if_neg (by norm_num [c3note, c4hitState, testState])]
  rw [if_neg (by norm_num [c4hitState, testState])]
  have hy : pitchToPx c3note.pitch (mkParams c4hitState testHost) = 67 := by
    unfold pitchToPx
    rw [if_neg (by norm_num [mkParams, c4hitState, testState])]
    rw [c4_displayPitches_len]
    norm_num [mkParams, c4hitState, testState, testOptions, testHost, c3note]
  rw [hy]
  unfold getNoteHeight
  rw [c4_displayPitches_len]
  norm_num [pluginTimeToPx, testHost, mkParams, c4hitState, testState, testOptions,
    c3note]

/-- C4 witness: a double-click on empty space at `x = 1, y = 1` over an empty
note list creates the expected sorted singleton; a double-click hitting the
note at `x = 5, y = 67` is a no-op. -/
theorem c4_double_click_witness :
    (onDoubleClick 1 1 testHost testState).1.notes =
      (testState.notes ++ [doubleClickNote 1 1 testHost testState]).mergeSort onsetLE ∧
    (onDoubleClick 1 1 testHost testState).1.notes.length = 1 ∧
    List.Sorted (fun a b => a.onset ≤ b.onset)
      (onDoubleClick 1 1 testHost testState).1.notes ∧
    (onDoubleClick 1 1 testHost testState).2 =
      [PREvent.notecreate (doubleClickNote 1 1 testHost testState),
       PREvent.noteschange] ∧
    onDoubleClick 5 67 testHost c4hitState = (c4hitState, []) := by
  have h := (c4_double_click 1 1 testHost testState rfl).2.1 rfl
  have hh := (c4_double_click 5 67 testHost c4hitState rfl).1 ⟨c3note, c4_hit_eval⟩
  exact ⟨h.1, by simpa [testState] using h.2.1, h.2.2.1, h.2.2.2, hh⟩

theorem mem_foldl_insertUnique {α : Type} [DecidableEq α] (l : List α) :
    ∀ (acc : List α) (x : α),
      x ∈ l.foldl (fun acc x => if x ∈ acc then acc else acc ++ [x]) acc ↔
        x ∈ acc ∨ x ∈ l := by
  induction l with
  | nil => simp
  | cons a l ih =>
    intro acc x
    simp only [List.foldl_cons]
    rw [ih]
    by_cases ha : a ∈ acc
    · rw [if_pos ha]
      constructor
      · rintro (h | h)
        · exact Or.inl h
        · exact Or.inr (List.mem_cons_of_mem _ h)
      · rintro (h | h)
        · exact Or.inl h
        · rcases List.mem_cons.mp h with rfl | h
          · exact Or.inl ha
          · exact Or.inr h
    · rw [if_neg ha]
      simp only [List.mem_append, List.mem_singleton, List.mem_cons]
      tauto

theorem nodup_foldl_insertUnique {α : Type} [DecidableEq α] (l : List α) :
    ∀ acc : List α, acc.Nodup →
      (l.foldl (fun acc x => if x ∈ acc then acc else acc ++ [x]) acc).Nodup := by
  induction l with
  | nil => exact fun acc h => h
  | cons a l ih =>
    intro acc h
    simp only [List.foldl_cons]
    by_cases ha : a ∈ acc
    · rw [if_pos ha]
      exact ih acc h
    · rw [if_neg ha]
      refine ih _ ?_
      rw [← List.concat_eq_append]
      exact List.Nodup.concat ha h

theorem mem_jsSetDedup {α : Type} [DecidableEq α] {l : List α} {x : α} :
    x ∈ jsSetDedup l ↔ x ∈ l := by
  unfold jsSetDedup
  rw [mem_foldl_insertUnique]
  simp

theorem nodup_jsSetDedup {α : Type} [DecidableEq α] (l : List α) :
    (jsSetDedup l).Nodup :=
  nodup_foldl_insertUnique l [] List.nodup_nil

theorem updateUsedPitchesFn_sorted (notes : List PianoRollNote) :
    List.Sorted (· < ·) (updateUsedPitchesFn notes) := by
  unfold updateUsedPitchesFn
  have hs := @List.sorted_mergeSort ℤ (fun a b => decide (a ≤ b))
    (fun a b c hab hbc => by
      simp only [decide_eq_true_eq] at *
      omega)
    (fun a b => by
      simp only [Bool.or_eq_true, decide_eq_true_eq]
      omega)
    (jsSetDedup (notes.map (fun n => n.pitch)))
  have hsorted : List.Sorted (· ≤ ·)
      ((jsSetDedup (notes.map (fun n => n.pitch))).mergeSort
        (fun a b => decide (a ≤ b))) :=
    hs.imp (fun hab => by simpa using hab)
  have hnodup := (List.mergeSort_perm
    (jsSetDedup (notes.map (fun n => n.pitch)))
    (fun a b => decide (a ≤ b))).nodup_iff.mpr (nodup_jsSetDedup _)
  exact hsorted.lt_of_le hnodup

theorem updateUsedPitchesFn_mem (notes : List PianoRollNote) (p : ℤ) :
    p ∈ updateUsedPitchesFn notes ↔ p ∈ notes.map (fun n => n.pitch) := by
  unfold updateUsedPitchesFn
  rw [(List.mergeSort_perm _ _).mem_iff, mem_jsSetDedup]

theorem loadNotes_fst_usedPitches (inputs : List PianoRollNoteInput) (hz : Bool)
    (st : PluginState) :
    (loadNotes inputs hz st).1.usedPitches =
      updateUsedPitchesFn ((inputs.map (fun n => normalizeNote n hz)).mergeSort
        onsetLE) := by
  unfold loadNotes
  rfl

theorem loadNotes_fst_notes (inputs : List PianoRollNoteInput) (hz : Bool)
    (st : PluginState) :
    (loadNotes inputs hz st).1.notes =
      (inputs.map (fun n => normalizeNote n hz)).mergeSort onsetLE := by
  unfold loadNotes
  dsimp only
  rw [show ∀ (s : PluginState) (v : List ℤ),
      ({ s with usedPitches := v } : PluginState).notes = s.notes
    from fun s v => rfl]
  rw [detectPitchRange_notes]

theorem c5_pxToPitch_eval : pxToPitch 65 (mkParams c5state testHost) = 62 := by
  rw [pxToPitch_unfolded_eq _ _ rfl]
  unfold rawPitchAt clampPitch
  rw [show (getDisplayPitches (mkParams c5state testHost)).length = 128 by
    rw [getDisplayPitches_unfolded _ rfl]
    rw [List.length_map, List.length_range]
    rfl]
  norm_num [mkParams, c5state, testState, testOptions, testHost, round_eq]

theorem onDragEnd_fst_notes (st : PluginState) :
    (onDragEnd st).1.notes = st.notes := by
  unfold onDragEnd
  cases st.dragState <;> rfl

theorem onDragEnd_fst_usedPitches (st : PluginState) :
    (onDragEnd st).1.usedPitches = st.usedPitches := by
  unfold onDragEnd
  cases st.dragState <;> rfl

/-- C5: the claim that `usedPitches` is refreshed at drag end is FALSE: a
move-drag that changes the dragged note's pitch from 60 to 62 followed by
`onDragEnd` leaves `usedPitches = [60]` while the note list's pitches are
`[62]`. -/
theorem c5_used_pitches_counterexample :
    ¬ usedPitchesInv (onDragEnd (onDragMove 0 65 testHost c5state)).1 := by
  intro h
  have hmove : (onDragMove 0 65 testHost c5state).notes.map (fun n => n.pitch)
      = [62] := by
    unfold onDragMove
    rw [show c5state.dragState = some c3drag from rfl]
    dsimp only
    rw [show c3drag.mode = DragMode.move from rfl]
    dsimp only
    rw [show c3drag.multiDrag = (none : Option (List (ℕ × PianoRollNote)))
        from rfl]
    dsimp only
    rw [c5_pxToPitch_eval]
    rw [if_pos (by decide :
      (c5state.notes.getD c3drag.noteIdx default).pitch ≠ (62 : ℤ))]
    rfl
  have hnotes : (onDragEnd (onDragMove 0 65 testHost c5state)).1.notes.map
      (fun n => n.pitch) = [62] := by
    rw [onDragEnd_fst_notes, hmove]
  have hused : (onDragEnd (onDragMove 0 65 testHost c5state)).1.usedPitches
      = [60] := by
    rw [onDragEnd_fst_usedPitches]
    rfl
  have h62 : (62 : ℤ) ∈ (onDragEnd (onDragMove 0 65 testHost
      c5state)).1.usedPitches :=
    (h.2 62).mpr (by rw [hnotes]; simp)
  rw [hused] at h62
  simp at h62

/-- C5 (amended): `usedPitches` equals the sorted-ascending set of distinct
pitches present after every structural change — `loadNotes` (hence
`loadCSV`), double-click creation, single delete, multi-delete and clear —
but it is NOT refreshed at drag end: an in-place pitch edit made during a
drag leaves `usedPitches` stale after `onDragEnd` until the next structural
change. -/
theorem c5_used_pitches_amended :
    (∀ (inputs : List PianoRollNoteInput) (hz : Bool) (st : PluginState),
      usedPitchesInv (loadNotes inputs hz st).1) ∧
    (∀ (csv : List Char) (opts : CSVParseOptions) (st : PluginState),
      usedPitchesInv (loadCSV csv opts st).1) ∧
    (∀ (x y : ℚ) (host : Host) (st : PluginState), usedPitchesInv st →
      usedPitchesInv (onDoubleClick x y host st).1) ∧
    (∀ (i : ℕ) (st : PluginState), usedPitchesInv st →
      usedPitchesInv (deleteNote i st).1) ∧
    (∀ st : PluginState, usedPitchesInv st →
      usedPitchesInv (deleteSelectedNotes st).1) ∧
    (∀ st : PluginState, usedPitchesInv (clearNotes st)) := by
  have hload : ∀ (inputs : List PianoRollNoteInput) (hz : Bool) (st : PluginState),
      usedPitchesInv (loadNotes inputs hz st).1 := by
    intro inputs hz st
    constructor
    · rw [loadNotes_fst_usedPitches]
      exact updateUsedPitchesFn_sorted _
    · intro p
      rw [loadNotes_fst_usedPitches, loadNotes_fst_notes]
      exact updateUsedPitchesFn_mem _ p
  refine ⟨hload, ?_, ?_, ?_, ?_, ?_⟩
  · intro csv opts st
    unfold loadCSV
    exact hload _ _ st
  · intro x y host st hinv
    unfold onDoubleClick
    cases hfind : findNoteAtPosition x y host st with
    | some m => exact hinv
    | none =>
      dsimp only
      exact ⟨updateUsedPitchesFn_sorted _, fun p => updateUsedPitchesFn_mem _ p⟩
  · intro i st hinv
    unfold deleteNote
    by_cases hi : i < st.notes.length
    · rw [if_pos hi]
      exact ⟨updateUsedPitchesFn_sorted _, fun p => updateUsedPitchesFn_mem _ p⟩
    · rw [if_neg hi]
      exact hinv
  · intro st hinv
    unfold deleteSelectedNotes
    by_cases hsel : st.selectedNotes = []
    · rw [if_pos hsel]
      exact hinv
    · rw [if_neg hsel]
      exact ⟨updateUsedPitchesFn_sorted _, fun p => updateUsedPitchesFn_mem _ p⟩
  · intro st
    constructor
    · rw [show (clearNotes st).usedPitches = [] by
        unfold clearNotes
        rw [detectPitchRange_usedPitches]]
      exact List.sorted_nil
    · intro p
      rw [show (clearNotes st).usedPitches = [] by
          unfold clearNotes
          rw [detectPitchRange_usedPitches],
        show (clearNotes st).notes = [] by
          unfold clearNotes
          rw [detectPitchRange_notes]]
      simp

/-- C5 witness: the invariant after a concrete load, creation, delete and
clear. -/
theorem c5_used_pitches_amended_witness :
    usedPitchesInv (loadNotes [PianoRollNoteInput.mk 60 0 none (some (1/2))
      none none none none] false testState).1 ∧
    usedPitchesInv (onDoubleClick 1 1 testHost testState).1 ∧
    usedPitchesInv (deleteNote 0 c4hitState).1 ∧
    usedPitchesInv (deleteSelectedNotes c4hitState).1 ∧
    usedPitchesInv (clearNotes c4hitState) := by
  refine ⟨c5_used_pitches_amended.1 _ false testState, ?_, ?_, ?_,
    c5_used_pitches_amended.2.2.2.2.2 c4hitState⟩
  · exact c5_used_pitches_amended.2.2.1 1 1 testHost testState
      (by constructor
          · simp [testState]
          · intro p
            simp [testState])
  · exact c5_used_pitches_amended.2.2.2.1 0 c4hitState
      (by constructor
          · simp [c4hitState, testState]
          · intro p
            simp [c4hitState, testState, c3note])
  · exact c5_used_pitches_amended.2.2.2.2.1 c4hitState
      (by constructor
          · simp [c4hitState, testState]
          · intro p
            simp [c4hitState, testState, c3note])

theorem calculateSpectrogram_length (audioData : List ℝ) (sr : ℚ)
    (fftSize hopSize : ℕ) :
    (calculateSpectrogram audioData sr fftSize hopSize).length =
      (⌊((audioData.length : ℚ) - (fftSize : ℚ)) / (hopSize : ℚ)⌋ + 1).toNat := by
  unfold calculateSpectrogram
  dsimp only
  rw [List.length_map, List.length_range]

theorem calculateSpectrogram_get? (audioData : List ℝ) (sr : ℚ)
    (fftSize hopSize k : ℕ)
    (hk : k < (⌊((audioData.length : ℚ) - (fftSize : ℚ)) / (hopSize : ℚ)⌋ + 1).toNat) :
    (calculateSpectrogram audioData sr fftSize hopSize).get? k =
      some (spectrogramFrame audioData fftSize hopSize k) := by
  unfold calculateSpectrogram
  dsimp only
  rw [List.get?_eq_getElem?, List.getElem?_map, List.getElem?_range hk]
  rfl

theorem calculateSpectrogram_frame_length (audioData : List ℝ) (sr : ℚ)
    (fftSize hopSize : ℕ) :
    ∀ frame ∈ calculateSpectrogram audioData sr fftSize hopSize,
      frame.length = fftSize / 2 := by
  intro frame hframe
  unfold calculateSpectrogram at hframe
  dsimp only at hframe
  obtain ⟨k, _, rfl⟩ := List.mem_map.mp hframe
  rw [List.length_map, List.length_range]

/-- C7: the claimed frame count `floor((numSamples - fftSize)/hop) + 1` is
FALSE for short inputs where the formula is negative: the empty signal with
`fftSize = 256`, `hop = 64` has 0 frames while the formula gives -3. -/
theorem c7_frame_count_counterexample :
    ((calculateSpectrogram ([] : List ℝ) 44100 256 64).length : ℤ) ≠
      ⌊((([] : List ℝ).length : ℚ) - ((256 : ℕ) : ℚ)) / ((64 : ℕ) : ℚ)⌋ + 1 := by
  rw [calculateSpectrogram_length]
  norm_num

/-- C7 (amended): the spectrogram is computed with overlap clamped to
`[0, 0.95]` and `hop = max(1, floor(fftSize * (1 - overlap)))`; it contains
exactly `max(0, floor((numSamples - fftSize)/hop) + 1)` frames — equal to
`floor((numSamples - fftSize)/hop) + 1` whenever `numSamples ≥ fftSize` — and
frame `k` is the vector of the first `fftSize/2` magnitudes
`sqrt(re² + im²)` of the FFT of the Hann-windowed segment at `k·hop`. -/
theorem c7_spectrogram_shape_amended :
    (∀ (audioData : List ℝ) (sr : ℚ) (fftSize hopSize : ℕ),
      (calculateSpectrogram audioData sr fftSize hopSize).length =
        (⌊((audioData.length : ℚ) - (fftSize : ℚ)) / (hopSize : ℚ)⌋ + 1).toNat) ∧
    (∀ (audioData : List ℝ) (sr : ℚ) (fftSize hopSize : ℕ),
      (fftSize : ℤ) ≤ (audioData.length : ℤ) →
      ((calculateSpectrogram audioData sr fftSize hopSize).length : ℤ) =
        ⌊((audioData.length : ℚ) - (fftSize : ℚ)) / (hopSize : ℚ)⌋ + 1) ∧
    (∀ (audioData : List ℝ) (sr : ℚ) (fftSize hopSize : ℕ),
      ∀ frame ∈ calculateSpectrogram audioData sr fftSize hopSize,
        frame.length = fftSize / 2) ∧
    (∀ (audioData : List ℝ) (sr : ℚ) (fftSize hopSize k : ℕ),
      k < (⌊((audioData.length : ℚ) - (fftSize : ℚ)) / (hopSize : ℚ)⌋ + 1).toNat →
      (calculateSpectrogram audioData sr fftSize hopSize).get? k =
        some (spectrogramFrame audioData fftSize hopSize k)) ∧
    (∀ (buffer : PRAudioBuffer) (st : PluginState),
      st.options.showSpectrogram = true →
      (calculateSpectrogramData buffer st).spectrogramData =
        calculateSpectrogram (mixToMono buffer) buffer.sampleRate
          st.currentFftSize
          (max 1 (⌊(st.currentFftSize : ℚ) *
            (1 - max 0 (min (95 / 100) st.options.spectrogramOverlap))⌋.toNat))) := by
  refine ⟨calculateSpectrogram_length, ?_, calculateSpectrogram_frame_length,
    calculateSpectrogram_get?, ?_⟩
  · intro audioData sr fftSize hopSize hlen
    rw [calculateSpectrogram_length]
    have hnonneg : 0 ≤ ⌊((audioData.length : ℚ) - (fftSize : ℚ)) / (hopSize : ℚ)⌋ := by
      refine Int.floor_nonneg.mpr (div_nonneg ?_ ?_)
      · rw [sub_nonneg]
        exact_mod_cast hlen
      · positivity
    omega
  · intro buffer st hshow
    unfold calculateSpectrogramData
    rw [if_neg (by rw [hshow]; simp)]

/-- C7 witness: a 4-sample signal with `fftSize = 4`, `hop = 2` has exactly
`floor((4-4)/2) + 1` frames, and a spectrogram-enabled state computes its
frame matrix with the clamped-overlap hop. -/
theorem c7_spectrogram_shape_amended_witness :
    ((calculateSpectrogram (List.replicate 4 (0 : ℝ)) 44100 4 2).length : ℤ) =
      ⌊(((List.replicate 4 (0 : ℝ)).length : ℚ) - ((4 : ℕ) : ℚ)) / ((2 : ℕ) : ℚ)⌋ + 1 ∧
    (calculateSpectrogramData (PRAudioBuffer.mk 44100 [[]])
        { testState with options := PluginOptions.mk none none 128 true (3/4) }).spectrogramData =
      calculateSpectrogram (mixToMono (PRAudioBuffer.mk 44100 [[]]))
        (PRAudioBuffer.mk 44100 [[]]).sampleRate
        ({ testState with options := PluginOptions.mk none none 128 true (3/4) } :
          PluginState).currentFftSize
        (max 1 (⌊(({ testState with options := PluginOptions.mk none none 128 true (3/4) } :
            PluginState).currentFftSize : ℚ) *
          (1 - max 0 (min (95 / 100)
            ({ testState with options := PluginOptions.mk none none 128 true (3/4) } :
              PluginState).options.spectrogramOverlap))⌋.toNat)) := by
  constructor
  · exact c7_spectrogram_shape_amended.2.1 (List.replicate 4 (0 : ℝ)) 44100 4 2
      (by rw [List.length_replicate])
  · exact c7_spectrogram_shape_amended.2.2.2.2 (PRAudioBuffer.mk 44100 [[]])
      { testState with options := PluginOptions.mk none none 128 true (3/4) } rfl

theorem parseFloat_eval_00 : parseFloat "0.0".data = some 0 := by
  rw [show "0.0".data = ['0', '.', '0'] from by decide]
  have h0 : ('0' : Char).toNat - ('0' : Char).toNat = 0 := by decide
  simp [parseFloat, List.takeWhile, List.dropWhile, isDigitChar]
  norm_num [digitsToNat, h0]

theorem parseFloat_eval_440 : parseFloat "440".data = some 440 := by
  rw [show "440".data = ['4', '4', '0'] from by decide]
  have h4 : ('4' : Char).toNat - ('0' : Char).toNat = 4 := by decide
  have h0 : ('0' : Char).toNat - ('0' : Char).toNat = 0 := by decide
  simp [parseFloat, List.takeWhile, List.dropWhile, isDigitChar]
  norm_num [digitsToNat, h4, h0]

theorem parseFloat_eval_05 : parseFloat "0.5".data = some (1/2) := by
  rw [show "0.5".data = ['0', '.', '5'] from by decide]
  have h5 : ('5' : Char).toNat - ('0' : Char).toNat = 5 := by decide
  have h0 : ('0' : Char).toNat - ('0' : Char).toNat = 0 := by decide
  simp [parseFloat, List.takeWhile, List.dropWhile, isDigitChar]
  norm_num [digitsToNat, h5, h0]

theorem parseFloat_eval_10 : parseFloat "1.0".data = some 1 := by
  rw [show "1.0".data = ['1', '.', '0'] from by decide]
  have h1 : ('1' : Char).toNat - ('0' : Char).toNat = 1 := by decide
  have h0 : ('0' : Char).toNat - ('0' : Char).toNat = 0 := by decide
  simp [parseFloat, List.takeWhile, List.dropWhile, isDigitChar]
  norm_num [digitsToNat, h1, h0]

theorem parseFloat_eval_880 : parseFloat "880".data = some 880 := by
  rw [show "880".data = ['8', '8', '0'] from by decide]
  have h8 : ('8' : Char).toNat - ('0' : Char).toNat = 8 := by decide
  have h0 : ('0' : Char).toNat - ('0' : Char).toNat = 0 := by decide
  simp [parseFloat, List.takeWhile, List.dropWhile, isDigitChar]
  norm_num [digitsToNat, h8, h0]

theorem parseFloat_eval_025 : parseFloat "0.25".data = some (1/4) := by
  rw [show "0.25".data = ['0', '.', '2', '5'] from by decide]
  have h2 : ('2' : Char).toNat - ('0' : Char).toNat = 2 := by decide
  have h5 : ('5' : Char).toNat - ('0' : Char).toNat = 5 := by decide
  have h0 : ('0' : Char).toNat - ('0' : Char).toNat = 0 := by decide
  simp [parseFloat, List.takeWhile, List.dropWhile, isDigitChar]
  norm_num [digitsToNat, h2, h5, h0]

theorem parseCSVRow_vocadito_1 :
    parseCSVRow vocaditoOpts "0.0,440,0.5".data =
      some (PianoRollNoteInput.mk 440 0 none (some (1/2)) none none none none) := by
  unfold parseCSVRow vocaditoOpts
  rw [show trimChars "0.0,440,0.5".data = "0.0,440,0.5".data from by decide]
  rw [if_neg (by decide)]
  rw [show splitOnChar ',' "0.0,440,0.5".data =
    ["0.0".data, "440".data, "0.5".data] from by decide]
  dsimp only
  rw [show (["0.0".data, "440".data, "0.5".data].get? 0) = some "0.0".data from rfl]
  rw [show (["0.0".data, "440".data, "0.5".data].get? 1) = some "440".data from rfl]
  rw [show (["0.0".data, "440".data, "0.5".data].get? 2) = some "0.5".data from rfl]
  rw [Option.some_bind, Option.some_bind, Option.some_bind]
  rw [parseFloat_eval_00, parseFloat_eval_440, parseFloat_eval_05]

theorem parseCSVRow_vocadito_2 :
    parseCSVRow vocaditoOpts "1.0,880,0.25".data =
      some (PianoRollNoteInput.mk 880 1 none (some (1/4)) none none none none) := by
  unfold parseCSVRow vocaditoOpts
  rw [show trimChars "1.0,880,0.25".data = "1.0,880,0.25".data from by decide]
  rw [if_neg (by decide)]
  rw [show splitOnChar ',' "1.0,880,0.25".data =
    ["1.0".data, "880".data, "0.25".data] from by decide]
  dsimp only
  rw [show (["1.0".data, "880".data, "0.25".data].get? 0) = some "1.0".data from rfl]
  rw [show (["1.0".data, "880".data, "0.25".data].get? 1) = some "880".data from rfl]
  rw [show (["1.0".data, "880".data, "0.25".data].get? 2) = some "0.25".data from rfl]
  rw [Option.some_bind, Option.some_bind, Option.some_bind]
  rw [parseFloat_eval_10, parseFloat_eval_880, parseFloat_eval_025]

theorem parseCSVRows_vocadito :
    parseCSVRows vocaditoCSV vocaditoOpts =
      [PianoRollNoteInput.mk 440 0 none (some (1/2)) none none none none,
       PianoRollNoteInput.mk 880 1 none (some (1/4)) none none none none] := by
  unfold parseCSVRows vocaditoCSV
  rw [show trimChars "0.0,440,0.5\n1.0,880,0.25".data =
    "0.0,440,0.5\n1.0,880,0.25".data from by decide]
  rw [show splitOnChar '\n' "0.0,440,0.5\n1.0,880,0.25".data =
    ["0.0,440,0.5".data, "1.0,880,0.25".data] from by decide]
  rw [show (if vocaditoOpts.hasHeader then 1 else 0) = 0 from rfl]
  dsimp only
  rw [List.drop_zero]
  rw [List.filterMap_cons, parseCSVRow_vocadito_1]
  rw [List.filterMap_cons, parseCSVRow_vocadito_2]
  rw [List.filterMap_nil]

theorem hzToMidiQuantized_440 : hzToMidiQuantized 440 = 69 := by
  unfold hzToMidiQuantized hzToMidi
  norm_num

theorem hzToMidiQuantized_880 : hzToMidiQuantized 880 = 81 := by
  unfold hzToMidiQuantized hzToMidi
  have h : ((880 : ℚ) : ℝ) / 440 = 2 := by norm_num
  rw [if_neg (by norm_num), h, Real.logb_self_eq_one (by norm_num)]
  norm_num

theorem normalizeNote_vocadito_1 :
    normalizeNote (PianoRollNoteInput.mk 440 0 none (some (1/2))
      none none none none) true =
      PianoRollNote.mk 69 (pitchToNoteName 69) 0 (1/2) (1/2) 0.8 0 0 none := by
  unfold normalizeNote toMidiPitch
  rw [if_pos (by simp)]
  rw [hzToMidiQuantized_440, clampPitch_intCast]
  rw [show clampPitchInt 69 = 69 from by decide]
  norm_num

theorem normalizeNote_vocadito_2 :
    normalizeNote (PianoRollNoteInput.mk 880 1 none (some (1/4))
      none none none none) true =
      PianoRollNote.mk 81 (pitchToNoteName 81) 1 (1 + 1/4) (1/4) 0.8 0 0 none := by
  unfold normalizeNote toMidiPitch
  rw [if_pos (by simp)]
  rw [hzToMidiQuantized_880, clampPitch_intCast]
  rw [show clampPitchInt 81 = 81 from by decide]
  norm_num

/-- C6: `loadCSV("0.0,440,0.5\n1.0,880,0.25", {pitchIsHz: true})` replaces
the note list of any starting state with exactly two notes of MIDI pitches 69
and 81 (Hz converted via `round(69 + 12·log2(hz/440))`), onsets 0 and 1, and
durations 0.5 and 0.25. -/
theorem c6_loadCSV_vocadito (st : PluginState) :
    (loadCSV vocaditoCSV vocaditoOpts st).1.notes.map
      (fun n => (n.pitch, n.onset, n.duration)) = [(69, 0, 1/2), (81, 1, 1/4)] ∧
    (loadCSV vocaditoCSV vocaditoOpts st).1.notes.length = 2 := by
  have hnotes : (loadCSV vocaditoCSV vocaditoOpts st).1.notes =
      [PianoRollNote.mk 69 (pitchToNoteName 69) 0 (1/2) (1/2) 0.8 0 0 none,
       PianoRollNote.mk 81 (pitchToNoteName 81) 1 (1 + 1/4) (1/4) 0.8 0 0 none] := by
    unfold loadCSV
    rw [parseCSVRows_vocadito]
    dsimp only
    rw [show vocaditoOpts.pitchIsHz = some true from rfl]
    dsimp only
    rw [loadNotes_fst_notes]
    rw [List.map_cons, List.map_cons, List.map_nil]
    rw [normalizeNote_vocadito_1, normalizeNote_vocadito_2]
    rw [List.mergeSort_of_sorted]
    rw [List.pairwise_cons]
    constructor
    · intro b hb
      rw [List.mem_singleton] at hb
      subst hb
      simp [onsetLE]
    · simp
  rw [hnotes]
  constructor
  · rfl
  · rfl
